import Mathlib

/-!
Verification development for the trackr bot (trackr.py, version 2.3.2).

The Python source is shallowly embedded: pure helpers become Lean
functions on `String`/`List Char`, the per-server mutable state
(`players`, `logged_in`, `password_attempt` entries of the `User`
object) becomes an explicit state record threaded through step
functions, and messages sent to the IRC server become values of an
explicit output type.  Python `dict` objects (which preserve insertion
order) are embedded as association lists.  Python `str.lower` is
modelled by its ASCII action (the names handled by the bot are ASCII).
The SHA-512 hex digest built by `Trackr.get_password` is modelled by
its preimage string: the digest is a deterministic function of the
preimage, so equality of preimages gives equality of digests, and
distinctness statements are made at the preimage level (this is the
standard collision-free abstraction of a cryptographic hash).
Python `float` values inside `_parse_duration` are modelled by exact
rationals over finite decimal literals.
-/

namespace Trackr

/-! ## Character and string utilities (models of Python str operations) -/

theorem char_toNat_ofNat_valid (n : Nat) (h : n < 55296) : (Char.ofNat n).toNat = n := by
  have hv : n.isValidChar := Or.inl h
  simp [Char.ofNat, hv, Char.ofNatAux, Char.toNat, UInt32.toNat]

/-- Model of Python `str.lower` on a single character (ASCII range). -/
def lowerChar (c : Char) : Char :=
  if 65 ≤ c.toNat ∧ c.toNat ≤ 90 then Char.ofNat (c.toNat + 32) else c

/-- Model of Python `str.lower`. -/
def lowerStr (s : String) : String := ⟨s.data.map lowerChar⟩

/-- Split a character list at the first occurrence of `sep`, if any. -/
def splitFirst (sep : Char) : List Char → Option (List Char × List Char)
  | [] => none
  | c :: rest =>
    if c = sep then some ([], rest)
    else (splitFirst sep rest).map (fun p => (c :: p.1, p.2))

/-- Model of Python `s.split(sep, maxsplit)` for a one-character
separator: at most `n` splits, remainder kept whole. -/
def splitChN (sep : Char) : Nat → List Char → List (List Char)
  | 0, cs => [cs]
  | n + 1, cs =>
    match splitFirst sep cs with
    | none => [cs]
    | some (a, b) => a :: splitChN sep n b

/-- Model of Python `s.split(sep)` (no maxsplit; length of the list
bounds the number of possible splits). -/
def splitChAll (sep : Char) (cs : List Char) : List (List Char) :=
  splitChN sep cs.length cs

/-- Python `s.split(sep, n)` lifted to `String`. -/
def pySplitN (s : String) (sep : Char) (n : Nat) : List String :=
  (splitChN sep n s.data).map (fun l => ⟨l⟩)

/-- Python `s.split(sep)` lifted to `String`. -/
def pySplit (s : String) (sep : Char) : List String :=
  (splitChAll sep s.data).map (fun l => ⟨l⟩)

/-- Model of Python `sep.join(parts)` for a one-character separator. -/
def joinCh (sep : Char) : List (List Char) → List Char
  | [] => []
  | [x] => x
  | x :: xs => x ++ sep :: joinCh sep xs

def pyJoin (sep : Char) (parts : List String) : String :=
  ⟨joinCh sep (parts.map String.data)⟩

/-- Model of Python `s.count(c)` for a single character. -/
def countCh (s : String) (c : Char) : Nat := s.data.count c

/-- Model of Python `s.replace(pat, rep)` (all non-overlapping
occurrences, scanning left to right), for a nonempty `pat`.  The fuel
argument of the auxiliary function is the length of the scanned list. -/
def replaceAux (pat rep : List Char) : Nat → List Char → List Char
  | 0, _ => []
  | f + 1, cs =>
    match cs with
    | [] => []
    | c :: rest =>
      if pat ≠ [] ∧ pat.isPrefixOf cs then
        rep ++ replaceAux pat rep f (cs.drop pat.length)
      else c :: replaceAux pat rep f rest

def pyReplace (s pat rep : String) : String :=
  ⟨replaceAux pat.data rep.data s.data.length s.data⟩

/-- Model of Python `s.startswith(p)`. -/
def pyStartsWith (s p : String) : Bool := p.data.isPrefixOf s.data

/-- Model of Python `s.endswith(p)`. -/
def pyEndsWith (s p : String) : Bool := p.data.reverse.isPrefixOf s.data.reverse

/-- Model of Python `c in s` for a single character. -/
def pyHasChar (s : String) (c : Char) : Bool := s.data.contains c

/-- Value of a list of decimal digit characters. -/
def natOfDigits (cs : List Char) : Nat :=
  cs.foldl (fun acc c => 10 * acc + (c.toNat - 48)) 0

def isDigitCh (c : Char) : Bool := 48 ≤ c.toNat ∧ c.toNat ≤ 57

/-- Parse an unsigned decimal literal (digits, optional dot, digits;
at least one digit overall) into an exact rational.  This is the model
of Python `float(...)` on finite decimal literals. -/
def parseDecCore (cs : List Char) : Option Rat :=
  let intPart := cs.takeWhile isDigitCh
  let rest := cs.dropWhile isDigitCh
  match rest with
  | [] => if intPart.isEmpty then none else some (natOfDigits intPart)
  | '.' :: frac =>
    if frac.all isDigitCh ∧ ¬(intPart.isEmpty ∧ frac.isEmpty) then
      some ((natOfDigits intPart : Rat) +
        (natOfDigits frac : Rat) / ((10 : Rat) ^ frac.length))
    else none
  | _ => none

def isPySpace (c : Char) : Bool := c = ' ' ∨ c = '\t' ∨ c = '\n' ∨ c = '\r'

/-- Model of Python `float(s)` restricted to optionally signed finite
decimal literals with surrounding whitespace. -/
def parseDec (s : String) : Option Rat :=
  let cs := (s.data.dropWhile isPySpace).reverse.dropWhile isPySpace |>.reverse
  match cs with
  | '-' :: rest => (parseDecCore rest).map (fun q => -q)
  | '+' :: rest => parseDecCore rest
  | _ => parseDecCore cs

/-- Source: `plural` (trackr.py line 52). -/
def plural (n : Int) : String := if n = 1 then "" else "s"

/-! ## Duration parsing (trackr.py lines 74-103) -/

/-- Source: `ModerationError` (line 74); carries its message. -/
structure ModerationError where
  msg : String
deriving DecidableEq

instance {e a : Type} [DecidableEq e] [DecidableEq a] :
    DecidableEq (Except e a) := fun x y =>
  match x, y with
  | Except.error u, Except.error v =>
    if h : u = v then isTrue (by rw [h])
    else isFalse (fun hc => h (by cases hc; rfl))
  | Except.error _, Except.ok _ => isFalse (fun hc => Except.noConfusion hc)
  | Except.ok _, Except.error _ => isFalse (fun hc => Except.noConfusion hc)
  | Except.ok u, Except.ok v =>
    if h : u = v then isTrue (by rw [h])
    else isFalse (fun hc => h (by cases hc; rfl))

/-- Source: `_durations` (line 77), an insertion-ordered dict; the float
values become exact rationals. -/
def _durations : List (String × Rat) :=
  [("ms", 1/1000), ("s", 1), ("m", 60), ("h", 3600), ("d", 86400), ("D", 86400),
   ("W", 604800), ("M", 2592000), ("Y", 31104000)]

/-- The spec's `InvalidDuration` error family: the two messages
`_parse_duration` itself can raise. -/
def isInvalidDuration (e : ModerationError) : Bool :=
  e.msg = "Invalid duration!" ∨ e.msg = "The duration must be at least one second!"

/-- The spec's `DurationTooLong` error family: the two bound-violation
messages raised by the moderation actions. -/
def isDurationTooLong (e : ModerationError) : Bool :=
  e.msg = "You cannot tempmute someone for over 2 hours!" ∨
  e.msg = "You cannot tempban someone for longer than 1 month!"

/-- Input domain of `_parse_duration`: `Union[str, int, float]`. -/
inductive DurInput
  | str (s : String)
  | int (n : Int)
  | float (q : Rat)
deriving DecidableEq

/-- Numeric portion of a duration string: the first suffix of
`_durations` (in insertion order) that matches is stripped, as in the
loop of `_parse_duration`. -/
def durNumStr (s : String) : String :=
  match _durations.find? (fun pr => pyEndsWith s pr.1) with
  | some pr => ⟨s.data.take (s.data.length - pr.1.data.length)⟩
  | none => s

/-- Multiplier selected by the suffix loop of `_parse_duration`; the
for-else branch gives 60 (minutes) when no suffix matches. -/
def durMultiplier (s : String) : Rat :=
  match _durations.find? (fun pr => pyEndsWith s pr.1) with
  | some pr => pr.2
  | none => 60

/-- Source: `_parse_duration` (lines 79-103).  The suffix search walks
`_durations` in insertion order and strips the first matching suffix;
a suffixless string gets multiplier 60, a bare number multiplier 1.
`math.floor` becomes `Rat.floor`; for an `int` input the floor of
`n * 1` is `n` itself. -/
def _parse_duration (duration : DurInput) : Except ModerationError Int :=
  match duration with
  | .str s =>
    match parseDec (durNumStr s) with
    | none => Except.error ⟨"Invalid duration!"⟩
    | some q =>
      if (q * durMultiplier s).floor ≤ 0 then
        Except.error ⟨"The duration must be at least one second!"⟩
      else Except.ok ((q * durMultiplier s).floor)
  | .int n =>
    if n ≤ 0 then Except.error ⟨"The duration must be at least one second!"⟩
    else Except.ok n
  | .float q =>
    if q.floor ≤ 0 then Except.error ⟨"The duration must be at least one second!"⟩
    else Except.ok q.floor

/-! ## Player (trackr.py lines 106-206) -/

/-- Source: `Player` (line 106), a `str` subclass carrying a mutable
warning counter; `name` is the underlying string value. -/
structure Player where
  name : String
  warnings : Int
deriving DecidableEq

/-- Source: `Player.total_warnings` (line 107). -/
def Player.total_warnings : Int := 2

/-- Commands a `Player` method sends to its server via
`self._server.msg(...)`, embedded structurally. -/
inductive Action
  | kick (name sender reason : String)
  | unban (name : String)
  | mute (name : String)
  | unmute (name : String)
  | tempmuteScript (name : String) (duration : Int)
  | tempban (name : String) (duration : Int) (sender reason : String)
  | warnFormspec (name msg : String)
deriving DecidableEq

def Player.kick (p : Player) (sender reason : String) : Action :=
  Action.kick p.name sender reason

def Player.unban (p : Player) : Action := Action.unban p.name

def Player.mute (p : Player) : Action := Action.mute p.name

def Player.unmute (p : Player) : Action := Action.unmute p.name

/-- Source: `Player.tempmute` (lines 131-149); the generated Lua script
is embedded as `Action.tempmuteScript` carrying the parsed duration. -/
def Player.tempmute (p : Player) (duration : DurInput) :
    Except ModerationError Action :=
  match _parse_duration duration with
  | Except.error e => Except.error e
  | Except.ok d =>
    if d > 7200 then
      Except.error ⟨"You cannot tempmute someone for over 2 hours!"⟩
    else Except.ok (Action.tempmuteScript p.name d)

/-- Value of `_durations[sM]` used by `Player.tempban`, where sM is the
month key. -/
def durationsM : Rat :=
  (((_durations.find? (fun pr => pr.1 = "M")).map Prod.snd).getD 0)

/-- Source: `Player.tempban` (lines 177-187). -/
def Player.tempban (p : Player) (sender : String) (duration : DurInput)
    (reason : String) : Except ModerationError Action :=
  match _parse_duration duration with
  | Except.error e => Except.error e
  | Except.ok d =>
    if (d : Rat) > durationsM then
      Except.error ⟨"You cannot tempban someone for longer than 1 month!"⟩
    else Except.ok (Action.tempban p.name d sender reason)

/-- Result of `Player.warn`: the updated player, the commands sent, and
the returned string. -/
structure WarnResult where
  player : Player
  actions : List Action
  result : String
deriving DecidableEq

/-- Source: `Player.warn` (lines 152-174).  A positive counter is
decremented and reported; otherwise `tempmute(30 * 60)` fires and the
counter resets to `total_warnings`.  The formspec command and the
returned string are built exactly as in the source. -/
def Player.warn (p : Player) (sender msg : String) :
    Except ModerationError WarnResult :=
  if p.warnings > 0 then
    let msg2 := toString p.warnings ++ " warning" ++ plural p.warnings ++
      " left until you get temp-muted."
    let fullmsg := msg ++ "\n -- " ++ sender ++ "\n\nYou have " ++ msg2
    Except.ok
      { player := { p with warnings := p.warnings - 1 }
        actions := [Action.warnFormspec p.name fullmsg]
        result := p.name ++ " has " ++ pyReplace msg2 "you" "they" }
  else
    match p.tempmute (DurInput.int (30 * 60)) with
    | Except.error e => Except.error e
    | Except.ok a =>
      let msg2 := "been temporarily muted for 30 minutes."
      let fullmsg := msg ++ "\n -- " ++ sender ++ "\n\nYou have " ++ msg2
      Except.ok
        { player := { p with warnings := Player.total_warnings }
          actions := [a, Action.warnFormspec p.name fullmsg]
          result := p.name ++ " has " ++ pyReplace msg2 "you" "they" }

/-! ## PlayerList (trackr.py lines 209-245)

Python dicts preserve insertion order and have unique keys; a
`PlayerList` is embedded as an association list, updated in place on an
existing key and appended otherwise.  All four dunder accessors lower
their key argument first. -/

abbrev PlayerList := List (String × Player)

/-- Source: `PlayerList.__contains__` (line 237). -/
def plContains (pl : PlayerList) (k : String) : Bool :=
  pl.any (fun e => e.1 == lowerStr k)

/-- Source: `PlayerList.get` / `__getitem__` (lines 225-229). -/
def plGet (pl : PlayerList) (k : String) : Option Player :=
  (pl.find? (fun e => e.1 == lowerStr k)).map Prod.snd

/-- Source: `PlayerList.__setitem__` (line 231). -/
def plSet (pl : PlayerList) (k : String) (v : Player) : PlayerList :=
  if plContains pl k then
    pl.map (fun e => if e.1 == lowerStr k then (e.1, v) else e)
  else pl ++ [(lowerStr k, v)]

/-- Source: `PlayerList.__delitem__` (line 234), on a present key. -/
def plDel (pl : PlayerList) (k : String) : PlayerList :=
  pl.filter (fun e => ¬ e.1 == lowerStr k)

/-- Source: `PlayerList.Player_` (lines 213-223) called with
`warnings=None`: an empty name is ignored, an existing entry is kept
untouched, and a fresh `Player` with `total_warnings` warnings is
stored otherwise.  The returned player is irrelevant to the callers
modelled here, so only the state effect is kept. -/
def plPlayerIns (pl : PlayerList) (name : String) : PlayerList :=
  if name = "" then pl
  else if plContains pl name then pl
  else plSet pl name (Player.mk name Player.total_warnings)

/-! ## The snapshot announcement line (trackr.py lines 248-250, 657-665) -/

/-- Case-insensitive literal match of `lit` against a prefix of `cs`,
returning the remainder; models a literal run inside the
`re.IGNORECASE` regex `_connected_players_re`. -/
def dropLiteralCI (lit cs : List Char) : Option (List Char) :=
  match lit, cs with
  | [], rest => some rest
  | _ :: _, [] => none
  | l :: ls, c :: rest =>
    if lowerChar c = lowerChar l then dropLiteralCI ls rest else none

/-- Match of the regex tail two-char literal plus the capturing group
`(.*)$`; `.` does not match a newline, and the chat transport never
delivers one, so a remainder with a newline is rejected. -/
def snapTail (r : List Char) : Option String :=
  match dropLiteralCI ": ".data r with
  | some rest => if rest.contains '\n' then none else some ⟨rest⟩
  | none => none

/-- Alternation `(?:s|(s) in parens)?` of the regex, with backtracking:
the three alternatives are tried in order. -/
def snapAfterPlayer (r1 : List Char) : Option String :=
  match (dropLiteralCI "s".data r1).bind snapTail with
  | some g => some g
  | none =>
    match (dropLiteralCI "(s)".data r1).bind snapTail with
    | some g => some g
    | none => snapTail r1

def matchSnapshotNoCount (cs : List Char) : Option String :=
  (dropLiteralCI "connected player".data cs).bind snapAfterPlayer

/-- Source: `_connected_players_re.match(msg)` (lines 248-250, 657),
returning `match.group(1)`.  The optional leading count tries the
maximal digit run first and falls back to no prefix, exactly as the
backtracking regex engine does. -/
def matchSnapshot (msg : String) : Option String :=
  let cs := msg.data
  let withCount : Option String :=
    let digits := cs.takeWhile isDigitCh
    let rest := cs.dropWhile isDigitCh
    if digits.isEmpty then none
    else match rest with
      | ' ' :: r => matchSnapshotNoCount r
      | _ => none
  match withCount with
  | some g => some g
  | none => matchSnapshotNoCount cs

/-- Source: line 658, `match.group(1).replace(s_space, s_empty).split(s_comma)`. -/
def parseSnapshotNames (grp : String) : List String :=
  pySplit (pyReplace grp " " "") ','

/-- Source: lines 658-665, the reconciliation body of the snapshot
branch: `Player_` every listed name, then delete every stored entry
whose player string is not literally in the list. -/
def applySnapshot (pl : PlayerList) (names : List String) : PlayerList :=
  let pl1 := names.foldl plPlayerIns pl
  pl1.filter (fun e => names.contains e.2.name)

/-! ## Credentials (trackr.py lines 398-407, 700-719) -/

/-- Source: `miniirc` `Hostmask` triple (nick, ident, host). -/
structure Hostmask where
  nick : String
  ident : String
  host : String
deriving DecidableEq

/-- Source: line 400, truncation of the host to its first three
slash-delimited segments. -/
def truncHostSlash (h : String) : String :=
  pyJoin '/' ((pySplitN h '/' 3).take 3)

/-- Source: line 402, further truncation to the first two dot-delimited
segments (legacy mode). -/
def truncHostDot (h : String) : String :=
  pyJoin '.' ((pySplitN h '.' 2).take 2)

/-- Source: `Trackr.get_password` (lines 399-407).  The function builds
the preimage string and returns its SHA-512 hex digest; the digest is
modelled by the preimage (see the module docstring). -/
def get_password (secret : String) (hm : Hostmask) (legacy : Bool) : String :=
  let host := truncHostSlash hm.host
  let host := if legacy then truncHostDot host else host
  hm.nick ++ "@" ++ host ++ ", secret: " ++ secret

/-- Configuration slice consumed by the authentication machinery
(trackr.py lines 286, 300-308): `secret`, the legacy-passwords flag,
and the optional new-domain marker with its legacy-domain list (both
set together or both absent). -/
structure Config where
  secret : String
  enable_legacy_passwords : Bool
  new_domain : Option String
  legacy_domains : Option (List String)
deriving DecidableEq

/-- Python list indexing `l[i]`, including negative indices. -/
def pyListGet (l : List String) (i : Int) : Option String :=
  if 0 ≤ i then l.get? i.toNat
  else if (-i).toNat ≤ l.length then l.get? (l.length - (-i).toNat) else none

/-- Source: `Trackr._get_pw_attempt` (lines 700-719).  `attempt` is an
`Int` so that the Python floor division `(attempt - 1) // 2` (which is
`-1` at `attempt = 0`) is `Int.fdiv`; the guarded list access then uses
Python indexing, where `-1` denotes the last element. -/
def _get_pw_attempt (cfg : Config) (hm : Hostmask) (attempt : Int) :
    Option String :=
  if ¬ cfg.enable_legacy_passwords then none
  else if attempt = 0 ∧ countCh hm.host '.' > 2 then
    some (get_password cfg.secret hm true)
  else
    match cfg.new_domain with
    | none => none
    | some nd =>
      if nd = "" ∨ hm.host ≠ nd then none
      else
        let idx : Int := (attempt - 1).fdiv 2
        match cfg.legacy_domains with
        | none => none
        | some ds =>
          if ds.isEmpty ∨ (ds.length : Int) ≤ idx then none
          else
            match pyListGet ds idx with
            | none => none
            | some d =>
              some (get_password cfg.secret ⟨hm.nick, hm.ident, d⟩
                (attempt % 2 = 0))

/-! ## Per-server authentication and roster state
(trackr.py lines 637-698) -/

/-- Values the `logged_in` slot of a server `User` object takes:
absent (`None`), the integer `0` written by `_login_cmd`, `True`, or
`False`.  Python `logged_in == 0` is true for both `zeroInt` and
`lfalse` (since `False == 0`), which is why the source also checks
`is not False`. -/
inductive LoggedIn
  | unset
  | zeroInt
  | ltrue
  | lfalse
deriving DecidableEq

/-- Per-server mutable state threaded through the PRIVMSG handler: the
roster plus the two authentication slots.  `password_attempt = 0`
models an absent key (the source reads it with `get(key, 0)` and only
ever stores values `>= 1`). -/
structure SrvState where
  players : PlayerList
  logged_in : LoggedIn
  password_attempt : Nat
deriving DecidableEq

/-- Outbound lines the server-message branch of `_handle_privmsg` can
send to the server (plus the stderr warning on exhaustion). -/
inductive Msg
  | login (pw : String)
  | setpassword (pw : String)
  | luaSayLoggedIn
  | warnIncorrectPassword
deriving DecidableEq

/-- Source: lines 648-656, the incremental join/leave branch for lines
starting with the three-asterisk marker. -/
def handleStarLine (st : SrvState) (msg : String) : SrvState :=
  let a := pySplitN msg ' ' 3
  if a.length ≤ 2 then st
  else
    let a1 := (a.get? 1).getD ""
    let a2 := (a.get? 2).getD ""
    if a2 = "joined" then { st with players := plPlayerIns st.players a1 }
    else if a2 = "left" ∧ plContains st.players a1 then
      { st with players := plDel st.players a1 }
    else st

/-- Source: lines 657-670, the full-snapshot branch: reconcile the
roster, then send the first login request when `logged_in` is unset and
moderation is enabled. -/
def handleSnapshotLine (cfg : Config) (hm : Hostmask) (st : SrvState)
    (grp : String) : SrvState × List Msg :=
  let names := parseSnapshotNames grp
  let pl := applySnapshot st.players names
  let msgs :=
    if st.logged_in = LoggedIn.unset ∧ cfg.secret ≠ "" then
      [Msg.login (get_password cfg.secret hm false)]
    else []
  ({ st with players := pl }, msgs)

/-- Source: lines 671-685, the login-succeeded branch (reached only
when the secret is nonempty).  `logged_in == 0 and logged_in is not
False` selects exactly the `zeroInt` sentinel; otherwise a truthy
`password_attempt` triggers the password auto-update and deletes the
marker; in every case `logged_in` becomes `True`. -/
def handleSuccessLine (cfg : Config) (hm : Hostmask) (st : SrvState) :
    SrvState × List Msg :=
  if st.logged_in = LoggedIn.zeroInt then
    ({ st with logged_in := LoggedIn.ltrue },
     [Msg.setpassword (get_password cfg.secret hm false), Msg.luaSayLoggedIn])
  else if st.password_attempt ≠ 0 then
    ({ st with password_attempt := 0, logged_in := LoggedIn.ltrue },
     [Msg.setpassword (get_password cfg.secret hm false)])
  else
    ({ st with logged_in := LoggedIn.ltrue }, [])

/-- Source: lines 686-698, the incorrect-password branch.  The walrus
`if pw := ...` tests truthiness, so an empty credential would count as
exhaustion; on a credential the attempt counter is stored incremented
and a fresh login is sent, otherwise `logged_in = False` and the
operator warning is printed. -/
def handleIncorrectLine (cfg : Config) (hm : Hostmask) (st : SrvState) :
    SrvState × List Msg :=
  let attempt := st.password_attempt
  match _get_pw_attempt cfg hm attempt with
  | some pw =>
    if pw = "" then
      ({ st with logged_in := LoggedIn.lfalse }, [Msg.warnIncorrectPassword])
    else
      ({ st with password_attempt := attempt + 1 }, [Msg.login pw])
  | none =>
    ({ st with logged_in := LoggedIn.lfalse }, [Msg.warnIncorrectPassword])

/-- Source: lines 648-698, the dispatch over a line arriving from a
recognized server, in source order: the asterisk marker, the snapshot
regex, the login-succeeded line (guarded by a nonempty secret), then
the incorrect-password line. -/
def handleServerMsg (cfg : Config) (hm : Hostmask) (st : SrvState)
    (msg : String) : SrvState × List Msg :=
  if pyStartsWith msg "*** " then (handleStarLine st msg, [])
  else
    match matchSnapshot msg with
    | some grp => handleSnapshotLine cfg hm st grp
    | none =>
      if pyStartsWith msg "You are now logged in as" ∧ cfg.secret ≠ "" then
        handleSuccessLine cfg hm st
      else if pyStartsWith msg "Incorrect password" then
        handleIncorrectLine cfg hm st
      else (st, [])

/-- Iterate `handleServerMsg` over a list of inbound lines, collecting
the outbound messages. -/
def runServerMsgs (cfg : Config) (hm : Hostmask) (st : SrvState) :
    List String → SrvState × List Msg
  | [] => (st, [])
  | m :: ms =>
    let r := handleServerMsg cfg hm st m
    let rest := runServerMsgs cfg hm r.1 ms
    (rest.1, r.2 ++ rest.2)

/-- Fallback credential sequence obtained by querying
`_get_pw_attempt` at successive attempt counters until it yields
nothing, starting from counter `a`; the fuel only bounds the recursion
and is chosen large enough below. -/
def credChainAux (cfg : Config) (hm : Hostmask) : Nat → Nat → List String
  | 0, _ => []
  | f + 1, a =>
    match _get_pw_attempt cfg hm a with
    | none => []
    | some c => c :: credChainAux cfg hm f (a + 1)

/-- Enough fuel: for attempt counters at least `2 * |domains| + 1` the
computed index reaches past the legacy-domain list. -/
def credChainFuel (cfg : Config) : Nat :=
  2 * (cfg.legacy_domains.getD []).length + 2

/-- The complete fallback credential sequence from attempt counter 0. -/
def credChain (cfg : Config) (hm : Hostmask) : List String :=
  credChainAux cfg hm (credChainFuel cfg) 0

/-! ## Rate limiter of the players command (trackr.py lines 424-436, 456) -/

/-- Per-channel rate-limit record: `last` models
`cooldowns.get(channel, -math.inf)` (`none` is minus infinity) and
`msgSent` models membership in `cooldown_msgs_sent`. -/
structure RLState where
  last : Option Rat
  msgSent : Bool
deriving DecidableEq

inductive RLEvent
  | rejectedSilent
  | rejectedNotice
  | accepted
deriving DecidableEq

/-- Source: the gate of `Trackr._players_cmd` (lines 427-436) together
with line 456: an accepted listing records its start time and then
advances the recorded timestamp by 0.5 for every nonempty server line
it emits; `pacing` is that total advance.  A request inside the window
is rejected, with the notice sent only when the flag is clear. -/
def playersCmdGate (cooldown : Rat) (st : RLState) (t pacing : Rat) :
    RLState × RLEvent :=
  let within : Bool :=
    match st.last with
    | some l => decide (t ≤ l + cooldown)
    | none => false
  if within then
    if st.msgSent then (st, RLEvent.rejectedSilent)
    else ({ st with msgSent := true }, RLEvent.rejectedNotice)
  else
    ({ last := some (t + pacing), msgSent := false }, RLEvent.accepted)

/-- Run the gate over a sequence of requests, given as pairs of arrival
time and listing pacing. -/
def runGate (cooldown : Rat) (st : RLState) :
    List (Rat × Rat) → List RLEvent
  | [] => []
  | r :: rs =>
    let x := playersCmdGate cooldown st r.1 r.2
    x.2 :: runGate cooldown x.1 rs

/-! ## Moderation command processor (trackr.py lines 492-560) -/

/-- Per-server view used by `_moderate`: the nickname, the `players`
slot (absent for a server never classified), and the `logged_in`
slot. -/
structure SrvData where
  nick : String
  players : Option PlayerList
  logged_in : LoggedIn
deriving DecidableEq

/-- Truthiness-aware membership test used by the resolution loop:
`if p and victim in p` is false for an absent roster, an empty roster,
and a roster not containing the victim. -/
def srvHasVictim (s : SrvData) (victim : String) : Bool :=
  match s.players with
  | none => false
  | some p => ¬ p.isEmpty ∧ plContains p victim

/-- Source: lines 525-531, the roster search for a target given
without a server qualifier, walking the servers of the channel in
iteration order; the `return` on a second match becomes an error
short-circuit.  `if p and victim in p` skips servers with an absent or
empty roster. -/
def findVictimGo (victim : String) (found : Option SrvData) :
    List SrvData → Except String (Option SrvData)
  | [] => Except.ok found
  | s :: ss =>
    if srvHasVictim s victim then
      match found with
      | some _ => Except.error "Error: That player is in multiple servers!"
      | none => findVictimGo victim (some s) ss
    else findVictimGo victim found ss

def findVictim (servers : List SrvData) (victim : String) :
    Except String (Option SrvData) :=
  findVictimGo victim none servers

def attemptedMsg (cmd : String) (p : Player) : String :=
  "Attempted to " ++ cmd ++ " " ++ p.name ++ "."

/-- Source: lines 540-560, the per-command dispatch on the resolved
player, with `ModerationError` caught and rendered; the second
component collects the commands sent to the server.  `kick`, `mute`,
`unmute`, `unban`, `tempmute` and `tempban` leave `res` as `None`, so
the fallback confirmation string is produced; `warn` returns its
message (never empty, but the source truthiness test is kept). -/
def moderateDispatch (cmd : String) (player : Player)
    (sender rest : String) : String × List Action :=
  if cmd = "mute" then (attemptedMsg cmd player, [player.mute])
  else if cmd = "unmute" then (attemptedMsg cmd player, [player.unmute])
  else if cmd = "unban" then (attemptedMsg cmd player, [player.unban])
  else if cmd = "warn" then
    match player.warn sender rest with
    | Except.ok r =>
      (if r.result = "" then attemptedMsg cmd player else r.result, r.actions)
    | Except.error e => ("Error: " ++ e.msg, [])
  else if cmd = "kick" then (attemptedMsg cmd player, [player.kick sender rest])
  else if cmd = "tempmute" then
    match player.tempmute (DurInput.str rest) with
    | Except.ok a => (attemptedMsg cmd player, [a])
    | Except.error e => ("Error: " ++ e.msg, [])
  else if cmd = "tempban" then
    match pySplitN rest ' ' 1 with
    | [duration, message] =>
      match player.tempban sender (DurInput.str duration) message with
      | Except.ok a => (attemptedMsg cmd player, [a])
      | Except.error e => ("Error: " ++ e.msg, [])
    | _ => ("Usage: tempban <player> <duration> <reason>", [])
  else ("Internal error!", [])

/-- Source: `Trackr._moderate` (lines 492-560) for an invocation whose
target token contains no at-sign, so that resolution walks every
recognized server roster (the server-qualified branch of lines 511-524
is not taken).  The channel is presented as its list of recognized
servers in iteration order, `sender` is `hostmask[0]`, and `isAdmin`
is the result of the channel rank check.  The `"KeyError"` branch is
unreachable: resolution only succeeds when the victim is in the chosen
roster. -/
def _moderate (cfg : Config) (sender : String) (isAdmin : Bool)
    (servers : List SrvData) (cmd param : String) : String :=
  if cfg.secret = "" then "Moderation is disabled!"
  else if ¬ isAdmin then "Permission denied!"
  else
    let n := pySplitN param ' ' 1
    let victim := lowerStr ((n.get? 0).getD "")
    let rest := (n.getLast?).getD ""
    match findVictim servers victim with
    | Except.error e => e
    | Except.ok none => "Unknown player!"
    | Except.ok (some s) =>
      if s.logged_in ≠ LoggedIn.ltrue then
        "I am not logged into " ++ s.nick ++ "!"
      else
        match plGet (s.players.getD []) victim with
        | some player => (moderateDispatch cmd player sender rest).1
        | none => "KeyError"

/-! ## Predicates and spec-side definitions used by the claim
statements -/

/-- Whether a list of sent commands includes a timed mute. -/
def hasTempmute (acts : List Action) : Bool :=
  acts.any (fun a =>
    match a with
    | Action.tempmuteScript _ _ => true
    | _ => false)

/-- Keys stored in a `PlayerList` are lowercase (Boolean form, so that
witnesses can evaluate it). -/
def plKeysLowerB (pl : PlayerList) : Bool :=
  pl.all (fun e => e.1 == lowerStr e.1)

/-- Stronger roster well-formedness: every key is the lowercasing of
its stored player string, and keys are unique (both hold for rosters
built by the handlers, mirroring Python dict semantics). -/
def plWF (pl : PlayerList) : Prop :=
  (∀ e ∈ pl, e.1 = lowerStr e.2.name) ∧ (pl.map Prod.fst).Nodup

/-- Credential built by `get_password` as a function of the final
(truncated) host; `get_password` always factors through it. -/
def credOfHost (secret nick : String) (h : String) : String :=
  nick ++ "@" ++ h ++ ", secret: " ++ secret

/-- The truncated host strings underlying the whole credential
sequence: the current-mode host, the legacy-mode host, then for each
legacy domain its current-mode and legacy-mode truncations. -/
def chainHostList (hm : Hostmask) (ds : List String) : List String :=
  truncHostSlash hm.host :: truncHostDot (truncHostSlash hm.host) ::
    ds.flatMap (fun d => [truncHostSlash d, truncHostDot (truncHostSlash d)])

/-- The fallback credentials predicted for a configuration whose
new-domain marker equals the server host: legacy-mode on the own host,
then current-mode and legacy-mode per listed domain. -/
def legacyCredList (cfg : Config) (hm : Hostmask) (ds : List String) :
    List String :=
  get_password cfg.secret hm true ::
    ds.flatMap (fun d =>
      [get_password cfg.secret ⟨hm.nick, hm.ident, d⟩ false,
       get_password cfg.secret ⟨hm.nick, hm.ident, d⟩ true])

/-- The credential sequence `cs` is exactly what `_get_pw_attempt`
yields from attempt counter `a` upwards, ending in exhaustion; the
nonemptiness conjunct reflects the walrus truthiness test. -/
def chainSpec (cfg : Config) (hm : Hostmask) : Nat → List String → Prop
  | a, [] => _get_pw_attempt cfg hm a = none
  | a, c :: cs =>
    _get_pw_attempt cfg hm a = some c ∧ c ≠ "" ∧ chainSpec cfg hm (a + 1) cs

/-- Spec-side prediction (amended claim C2) of `_get_pw_attempt` at
attempt 0: the legacy-mode derivation of the server's own host exactly
when the feature is on and the host has more than two dots; otherwise
the counter-intuitive fall-through applies the Python index `-1`, the
last legacy domain in legacy mode, whenever the host equals a nonempty
new-domain marker and the domain list is nonempty. -/
def fallbackSpec0 (cfg : Config) (hm : Hostmask) : Option String :=
  if cfg.enable_legacy_passwords ∧ 2 < countCh hm.host '.' then
    some (get_password cfg.secret hm true)
  else
    match cfg.new_domain, cfg.legacy_domains with
    | some nd, some (d :: ds) =>
      if cfg.enable_legacy_passwords ∧ nd ≠ "" ∧ hm.host = nd then
        some (get_password cfg.secret
          ⟨hm.nick, hm.ident, (d :: ds).getLast (by simp)⟩ true)
      else none
    | _, _ => none

/-- Spec-side prediction (amended claim C2) of `_get_pw_attempt` at a
positive attempt counter `a`: the domain at index `(a-1)/2`, legacy
mode exactly on even counters, and exhaustion when the feature is off,
the marker is absent or empty or differs from the host, or the index
is past the end of the list. -/
def fallbackSpecPos (cfg : Config) (hm : Hostmask) (a : Nat) :
    Option String :=
  match cfg.new_domain, cfg.legacy_domains with
  | some nd, some ds =>
    if cfg.enable_legacy_passwords ∧ nd ≠ "" ∧ hm.host = nd then
      match ds.get? ((a - 1) / 2) with
      | some d =>
        some (get_password cfg.secret ⟨hm.nick, hm.ident, d⟩
          (a % 2 = 0))
      | none => none
    else none
  | _, _ => none

/-- Scan of a rate-limiter event list: accepts `true` exactly when no
cooldown window contains two notices, where a window is delimited by
accepted requests; the flag argument records whether the current
window has already produced a notice. -/
def noticesOkAux : Bool → List RLEvent → Bool
  | _, [] => true
  | b, e :: es =>
    match e with
    | RLEvent.accepted => noticesOkAux false es
    | RLEvent.rejectedNotice => if b then false else noticesOkAux true es
    | RLEvent.rejectedSilent => noticesOkAux b es

def noticesOk (evs : List RLEvent) : Bool := noticesOkAux false evs

/-- Whether an outbound message list contains a credential-rotation
(setpassword) command. -/
def hasSetpassword (msgs : List Msg) : Bool :=
  msgs.any (fun m =>
    match m with
    | Msg.setpassword _ => true
    | _ => false)

/-! ## General helper lemmas -/

theorem rat_floor_intCast (n : Int) : ((n : ℚ)).floor = n := by
  rw [show ((n : ℚ)).floor = ⌊(n : ℚ)⌋ from rfl, Int.floor_intCast]

/-- Evaluation helper: a duration string whose numeric portion parses
to `q` and whose floored product is the positive integer `n` parses to
`n`. -/
theorem parse_str_ok (s : String) (q : Rat) (n : Int)
    (h1 : parseDec (durNumStr s) = some q)
    (h2 : q * durMultiplier s = ((n : ℤ) : ℚ)) (h3 : 0 < n) :
    _parse_duration (DurInput.str s) = Except.ok n := by
  simp only [_parse_duration, h1, h2, rat_floor_intCast]
  rw [if_neg (by omega)]

/-- Evaluation helper: a nonpositive floored product is rejected. -/
theorem parse_str_err_nonpos (s : String) (q : Rat) (n : Int)
    (h1 : parseDec (durNumStr s) = some q)
    (h2 : q * durMultiplier s = ((n : ℤ) : ℚ)) (h3 : n ≤ 0) :
    _parse_duration (DurInput.str s) =
      Except.error ⟨"The duration must be at least one second!"⟩ := by
  simp only [_parse_duration, h1, h2, rat_floor_intCast]
  rw [if_pos (by omega)]

/-! ## Claim C5: the duration parser -/

/-- Claim C5: the duration parser returns the floor of the numeric
value times the unit multiplier (suffix from the fixed table, default
minutes for a suffixless string, seconds for a bare int or float),
always a positive integer; it fails with an `InvalidDuration`-family
`ModerationError` exactly when the numeric portion does not parse or
the floored product is at most 0; and the spec's examples hold:
"30m" gives 1800, "2h" gives 7200, "1" gives 60, while "0s" and "-5s"
fail. -/
theorem C5_duration_parsing :
    (∀ inp d, _parse_duration inp = Except.ok d → 0 < d) ∧
    (∀ inp e, _parse_duration inp = Except.error e → isInvalidDuration e = true) ∧
    (∀ s, (∃ e, _parse_duration (DurInput.str s) = Except.error e) ↔
      (parseDec (durNumStr s) = none ∨
        ∃ q, parseDec (durNumStr s) = some q ∧ (q * durMultiplier s).floor ≤ 0)) ∧
    (∀ s q, parseDec (durNumStr s) = some q → 0 < (q * durMultiplier s).floor →
      _parse_duration (DurInput.str s) = Except.ok ((q * durMultiplier s).floor)) ∧
    (∀ s, (∀ pr ∈ _durations, pyEndsWith s pr.1 = false) → durMultiplier s = 60) ∧
    (∀ n : Int, 0 < n → _parse_duration (DurInput.int n) = Except.ok n) ∧
    (∀ q : Rat, 0 < q.floor → _parse_duration (DurInput.float q) = Except.ok q.floor) ∧
    _parse_duration (DurInput.str "30m") = Except.ok 1800 ∧
    _parse_duration (DurInput.str "2h") = Except.ok 7200 ∧
    _parse_duration (DurInput.str "1") = Except.ok 60 ∧
    (∃ e, _parse_duration (DurInput.str "0s") = Except.error e ∧ isInvalidDuration e = true) ∧
    (∃ e, _parse_duration (DurInput.str "-5s") = Except.error e ∧ isInvalidDuration e = true) := by
  refine ⟨?_, ?_, ?_, ?_, ?_, ?_, ?_, ?_, ?_, ?_, ?_, ?_⟩
  · intro inp d h
    cases inp <;> simp only [_parse_duration] at h
    · split at h
      · exact absurd h (by simp)
      · split at h
        · exact absurd h (by simp)
        · cases h; omega
    · split at h
      · exact absurd h (by simp)
      · cases h; omega
    · split at h
      · exact absurd h (by simp)
      · cases h; omega
  · intro inp e h
    cases inp <;> simp only [_parse_duration] at h
    · split at h
      · cases h; decide
      · split at h
        · cases h; decide
        · exact absurd h (by simp)
    · split at h
      · cases h; decide
      · exact absurd h (by simp)
    · split at h
      · cases h; decide
      · exact absurd h (by simp)
  · intro s
    constructor
    · rintro ⟨e, h⟩
      simp only [_parse_duration] at h
      split at h
      · exact Or.inl (by assumption)
      · split at h
        · rename_i q hq hle
          exact Or.inr ⟨q, hq, hle⟩
        · exact absurd h (by simp)
    · rintro (hp | ⟨q, hp, hle⟩)
      · exact ⟨⟨"Invalid duration!"⟩, by simp only [_parse_duration, hp]⟩
      · exact ⟨⟨"The duration must be at least one second!"⟩,
          by simp only [_parse_duration, hp]; rw [if_pos hle]⟩
  · intro s q hp hpos
    simp only [_parse_duration, hp]
    rw [if_neg (by omega)]
  · intro s hall
    rcases hf : _durations.find? (fun pr => pyEndsWith s pr.1) with _ | pr
    · simp only [durMultiplier, hf]
    · have := List.find?_some hf
      have hm := List.mem_of_find?_eq_some hf
      rw [hall pr hm] at this
      exact absurd this (by simp)
  · intro n h
    simp only [_parse_duration]
    rw [if_neg (by omega)]
  · intro q h
    simp only [_parse_duration]
    rw [if_neg (by omega)]
  · exact parse_str_ok "30m" 30 1800 (by decide)
      (by rw [show durMultiplier "30m" = 60 from by decide]; norm_num) (by norm_num)
  · exact parse_str_ok "2h" 2 7200 (by decide)
      (by rw [show durMultiplier "2h" = 3600 from by decide]; norm_num) (by norm_num)
  · exact parse_str_ok "1" 1 60 (by decide)
      (by rw [show durMultiplier "1" = 60 from by decide]; norm_num) (by norm_num)
  · refine ⟨⟨"The duration must be at least one second!"⟩, ?_, by decide⟩
    exact parse_str_err_nonpos "0s" 0 0 (by decide)
      (by rw [show durMultiplier "0s" = 1 from by decide]; norm_num) (by norm_num)
  · refine ⟨⟨"The duration must be at least one second!"⟩, ?_, by decide⟩
    exact parse_str_err_nonpos "-5s" (-5) (-5) (by decide)
      (by rw [show durMultiplier "-5s" = 1 from by decide]; norm_num) (by norm_num)

/-- Witness for C5 at concrete inputs. -/
theorem C5_duration_parsing_witness :
    _parse_duration (DurInput.int 90) = Except.ok 90 ∧
    _parse_duration (DurInput.str "2h") = Except.ok 7200 :=
  ⟨C5_duration_parsing.2.2.2.2.2.1 90 (by norm_num),
   C5_duration_parsing.2.2.2.2.2.2.2.2.1⟩

/-! ## Claim C6: the action-specific duration bounds -/

/-- Claim C6: the upper bounds are enforced by the moderation actions,
not the parser.  For every successfully parsed duration `d`, tempmute
fails with the `DurationTooLong`-family error exactly when `d > 7200`
(7201 fails, 7200 succeeds), tempban exactly when `d > 2592000` (the
month entry of the duration table), and the parser never produces a
`DurationTooLong` error. -/
theorem C6_action_bounds :
    (∀ (p : Player) inp d, _parse_duration inp = Except.ok d →
      (7200 < d →
        p.tempmute inp = Except.error ⟨"You cannot tempmute someone for over 2 hours!"⟩) ∧
      (d ≤ 7200 → p.tempmute inp = Except.ok (Action.tempmuteScript p.name d))) ∧
    (∀ (p : Player) sender inp reason d, _parse_duration inp = Except.ok d →
      (2592000 < d →
        p.tempban sender inp reason =
          Except.error ⟨"You cannot tempban someone for longer than 1 month!"⟩) ∧
      (d ≤ 2592000 →
        p.tempban sender inp reason = Except.ok (Action.tempban p.name d sender reason))) ∧
    durationsM = 2592000 ∧
    (∀ inp e, _parse_duration inp = Except.error e → isDurationTooLong e = false) ∧
    (∀ p : Player,
      p.tempmute (DurInput.int 7201) =
        Except.error ⟨"You cannot tempmute someone for over 2 hours!"⟩) ∧
    (∀ p : Player,
      p.tempmute (DurInput.int 7200) = Except.ok (Action.tempmuteScript p.name 7200)) := by
  have hM : durationsM = 2592000 := by decide
  have hmute : ∀ (p : Player) inp d, _parse_duration inp = Except.ok d →
      (7200 < d →
        p.tempmute inp = Except.error ⟨"You cannot tempmute someone for over 2 hours!"⟩) ∧
      (d ≤ 7200 → p.tempmute inp = Except.ok (Action.tempmuteScript p.name d)) := by
    intro p inp d h
    constructor
    · intro hgt
      simp only [Player.tempmute, h]
      rw [if_pos (by omega)]
    · intro hle
      simp only [Player.tempmute, h]
      rw [if_neg (by omega)]
  refine ⟨hmute, ?_, hM, ?_, ?_, ?_⟩
  · intro p sender inp reason d h
    constructor
    · intro hgt
      simp only [Player.tempban, h, hM]
      rw [if_pos (by exact_mod_cast hgt)]
    · intro hle
      simp only [Player.tempban, h, hM]
      rw [if_neg (by exact_mod_cast not_lt.mpr hle)]
  · intro inp e h
    have := C5_duration_parsing.2.1 inp e h
    revert this
    unfold isInvalidDuration isDurationTooLong
    rcases e with ⟨m⟩
    simp only []
    intro hinv
    rcases of_decide_eq_true hinv with h1 | h1 <;> rw [h1] <;> decide
  · intro p
    exact ((hmute p (DurInput.int 7201) 7201 (by norm_num [_parse_duration])).1 (by omega))
  · intro p
    exact ((hmute p (DurInput.int 7200) 7200 (by norm_num [_parse_duration])).2 (by omega))

/-- Witness for C6 at a concrete player and duration. -/
theorem C6_action_bounds_witness :
    (Player.mk "Bob" 2).tempmute (DurInput.int 7201) =
      Except.error ⟨"You cannot tempmute someone for over 2 hours!"⟩ ∧
    (Player.mk "Bob" 2).tempban "op" (DurInput.int 2592000) "r" =
      Except.ok (Action.tempban "Bob" 2592000 "op" "r") :=
  ⟨C6_action_bounds.2.2.2.2.1 (Player.mk "Bob" 2),
   (C6_action_bounds.2.1 (Player.mk "Bob" 2) "op" (DurInput.int 2592000) "r" 2592000
      (by norm_num [_parse_duration])).2 (by omega)⟩

/-! ## Claim C8: warning escalation -/

/-- Claim C8 counterexample: a player with exactly one warning left who
is warned is not muted (no timed-mute command is sent) and their
counter drops to 0 rather than resetting to the maximum; the claim's
sentence about the one-warning case is therefore false. -/
theorem C8_counterexample :
    (Player.mk "Bob" 1).warn "op" "stop" = Except.ok
      { player := Player.mk "Bob" 0
        actions := [Action.warnFormspec "Bob"
          "stop\n -- op\n\nYou have 1 warning left until you get temp-muted."]
        result := "Bob has 1 warning left until they get temp-muted." } ∧
    hasTempmute [Action.warnFormspec "Bob"
      "stop\n -- op\n\nYou have 1 warning left until you get temp-muted."] = false ∧
    (0 : Int) ≠ Player.total_warnings := by
  refine ⟨by decide, by decide, by decide⟩

/-- Claim C8 (amended): warn mutes for 30 minutes (a fixed 1800-second
tempmute) and resets the counter to the maximum exactly when the
counter has already reached zero; a player with a positive counter is
only decremented and told the remaining count, so a player with 1
warning left ends at 0 unmuted and the muting happens on the following
warn. -/
theorem C8_warn_escalation :
    (∀ (p : Player) sender msg, p.warnings = 0 →
      p.warn sender msg = Except.ok
        { player := { p with warnings := Player.total_warnings }
          actions := [Action.tempmuteScript p.name 1800,
            Action.warnFormspec p.name
              (msg ++ "\n -- " ++ sender ++ "\n\nYou have " ++
                "been temporarily muted for 30 minutes.")]
          result := p.name ++ " has " ++ "been temporarily muted for 30 minutes." }) ∧
    (∀ (p : Player) sender msg, 0 < p.warnings →
      p.warn sender msg = Except.ok
        { player := { p with warnings := p.warnings - 1 }
          actions := [Action.warnFormspec p.name
            (msg ++ "\n -- " ++ sender ++ "\n\nYou have " ++ (toString p.warnings ++
              " warning" ++ plural p.warnings ++ " left until you get temp-muted."))]
          result := p.name ++ " has " ++
            pyReplace (toString p.warnings ++ " warning" ++ plural p.warnings ++
              " left until you get temp-muted.") "you" "they" }) ∧
    (∀ (p : Player) sender msg, 0 < p.warnings →
      ∀ r, p.warn sender msg = Except.ok r → hasTempmute r.actions = false) ∧
    (∀ (p : Player) s1 m1 s2 m2, p.warnings = 1 →
      ∃ r1 r2, p.warn s1 m1 = Except.ok r1 ∧ r1.player.warnings = 0 ∧
        hasTempmute r1.actions = false ∧
        r1.player.warn s2 m2 = Except.ok r2 ∧
        hasTempmute r2.actions = true ∧ r2.player.warnings = Player.total_warnings) := by
  have hz : ∀ (p : Player) sender msg, p.warnings = 0 →
      p.warn sender msg = Except.ok
        { player := { p with warnings := Player.total_warnings }
          actions := [Action.tempmuteScript p.name 1800,
            Action.warnFormspec p.name
              (msg ++ "\n -- " ++ sender ++ "\n\nYou have " ++
                "been temporarily muted for 30 minutes.")]
          result := p.name ++ " has " ++ "been temporarily muted for 30 minutes." } := by
    intro p sender msg h0
    have htm : p.tempmute (DurInput.int (30 * 60)) =
        Except.ok (Action.tempmuteScript p.name 1800) := by
      simp only [Player.tempmute,
        show _parse_duration (DurInput.int (30 * 60)) = Except.ok 1800 from by
          norm_num [_parse_duration]]
      rw [if_neg (by omega)]
    simp only [Player.warn]
    rw [if_neg (by omega)]
    simp only [htm]
    rfl
  have hp : ∀ (p : Player) sender msg, 0 < p.warnings →
      p.warn sender msg = Except.ok
        { player := { p with warnings := p.warnings - 1 }
          actions := [Action.warnFormspec p.name
            (msg ++ "\n -- " ++ sender ++ "\n\nYou have " ++ (toString p.warnings ++
              " warning" ++ plural p.warnings ++ " left until you get temp-muted."))]
          result := p.name ++ " has " ++
            pyReplace (toString p.warnings ++ " warning" ++ plural p.warnings ++
              " left until you get temp-muted.") "you" "they" } := by
    intro p sender msg h0
    simp only [Player.warn]
    rw [if_pos h0]
  refine ⟨hz, hp, ?_, ?_⟩
  · intro p sender msg h0 r hr
    rw [hp p sender msg h0] at hr
    cases hr
    rfl
  · intro p s1 m1 s2 m2 h1
    have e1 := hp p s1 m1 (by omega)
    have hw0 : ({ p with warnings := p.warnings - 1 } : Player).warnings = 0 := by
      simp [h1]
    have e2 := hz { p with warnings := p.warnings - 1 } s2 m2 hw0
    exact ⟨_, _, e1, hw0, rfl, e2, rfl, rfl⟩

/-- Witness for C8 at a concrete player. -/
theorem C8_warn_escalation_witness :
    ∃ r1 r2, (Player.mk "Ann" 1).warn "op" "hi" = Except.ok r1 ∧
      r1.player.warnings = 0 ∧ hasTempmute r1.actions = false ∧
      r1.player.warn "op" "hi2" = Except.ok r2 ∧
      hasTempmute r2.actions = true ∧ r2.player.warnings = Player.total_warnings :=
  C8_warn_escalation.2.2.2 (Player.mk "Ann" 1) "op" "hi" "op" "hi2" rfl

/-! ## Claim C2: the fallback-credential function -/

/-- Claim C2 counterexample: with the feature enabled and a host of
exactly three dot-separated segments (which is more than two segments),
attempt 0 yields no credential at all, because the source condition is
`hostmask[2].count(".") > 2` — more than two *dots*, i.e. more than
three segments — not more than two segments as the claim states. -/
theorem C2_counterexample :
    _get_pw_attempt ⟨"sec", true, none, none⟩ ⟨"srv", "id", "a.b.c"⟩ 0 = none ∧
    (pySplit "a.b.c" '.').length = 3 ∧
    (⟨"sec", true, none, none⟩ : Config).enable_legacy_passwords = true ∧
    _get_pw_attempt ⟨"sec", true, none, none⟩ ⟨"srv", "id", "a.b.c"⟩ 0 ≠
      some (get_password "sec" ⟨"srv", "id", "a.b.c"⟩ true) := by
  refine ⟨by decide, by decide, by decide, by decide⟩

theorem get_pw_attempt_zero (cfg : Config) (hm : Hostmask) :
    _get_pw_attempt cfg hm 0 = fallbackSpec0 cfg hm := by
  simp only [_get_pw_attempt, fallbackSpec0]
  by_cases hen : cfg.enable_legacy_passwords
  · by_cases hdots : 2 < countCh hm.host '.'
    · rw [if_neg (by simp [hen]), if_pos (by exact ⟨trivial, hdots⟩),
        if_pos (by exact ⟨hen, hdots⟩)]
    · rw [if_neg (by simp [hen]), if_neg (by simp [hdots]),
        if_neg (by simp [hen, hdots])]
      rcases cfg.new_domain with _ | nd
      · rfl
      · rcases cfg.legacy_domains with _ | ds
        · simp only []
          by_cases hskip : nd = "" ∨ hm.host ≠ nd
          · rw [if_pos hskip]
          · rw [if_neg hskip]
        · cases ds with
          | nil =>
            simp only []
            by_cases hskip : nd = "" ∨ hm.host ≠ nd
            · rw [if_pos hskip]
            · rw [if_neg hskip]
              rw [if_pos (Or.inl (by rfl))]
          | cons d t =>
            simp only []
            by_cases hskip : nd = "" ∨ hm.host ≠ nd
            · rw [if_pos hskip,
                if_neg (fun hcon => by
                  rcases hskip with h | h
                  · exact hcon.2.1 h
                  · exact h hcon.2.2)]
            · rw [if_neg hskip]
              push_neg at hskip
              rw [show ((0 : Int) - 1).fdiv 2 = -1 from by decide]
              rw [if_neg (fun hcon => by
                rcases hcon with h | h
                · simp at h
                · have : (0 : Int) ≤ ((d :: t).length : Int) := by positivity
                  omega)]
              have hget : pyListGet (d :: t) (-1) =
                  some ((d :: t).getLast (by simp)) := by
                simp only [pyListGet]
                rw [if_neg (by decide), if_pos (by
                  rw [show ((-(-1 : Int)).toNat) = 1 from by decide]
                  simp [Nat.succ_le])]
                rw [show ((-(-1 : Int)).toNat) = 1 from by decide]
                rw [show (d :: t).length - 1 = t.length from by simp]
                rw [List.get?_eq_get (by simp)]
                rw [List.getLast_eq_get]
                congr 1
              rw [hget]
              simp only []
              rw [if_pos (⟨hen, hskip.1, hskip.2⟩ :
                cfg.enable_legacy_passwords = true ∧ nd ≠ "" ∧ hm.host = nd)]
              rfl
  · rw [if_pos (by simp [hen]), if_neg (by simp [hen])]
    rcases cfg.new_domain with _ | nd
    · rfl
    · rcases cfg.legacy_domains with _ | ds
      · rfl
      · cases ds with
        | nil => rfl
        | cons d t =>
          simp only []
          rw [if_neg (by simp [hen])]

theorem get_pw_attempt_pos (cfg : Config) (hm : Hostmask) :
    ∀ a : Nat, 1 ≤ a →
      _get_pw_attempt cfg hm (a : Int) = fallbackSpecPos cfg hm a := by
  intro a ha
  have hane : ¬((a : Int) = 0 ∧ 2 < countCh hm.host '.') := by
    intro h
    have h1 := h.1
    omega
  simp only [_get_pw_attempt, fallbackSpecPos]
  by_cases hen : cfg.enable_legacy_passwords
  · rw [if_neg (by simp [hen]), if_neg hane]
    rcases cfg.new_domain with _ | nd
    · rfl
    · rcases cfg.legacy_domains with _ | ds
      · simp only []
        by_cases hskip : nd = "" ∨ hm.host ≠ nd
        · rw [if_pos hskip]
        · rw [if_neg hskip]
      · have hidx : ((a : Int) - 1).fdiv 2 = (((a - 1) / 2 : Nat) : Int) := by
          rw [show ((a : Int) - 1) = (((a - 1 : Nat)) : Int) from by omega]
          rw [show ((2 : Int)) = ((2 : Nat) : Int) from by norm_cast]
          rw [← Int.ofNat_fdiv]
        simp only []
        by_cases hskip : nd = "" ∨ hm.host ≠ nd
        · rw [if_pos hskip,
            if_neg (fun hcon => by
              rcases hskip with h | h
              · exact hcon.2.1 h
              · exact h hcon.2.2)]
        · rw [if_neg hskip]
          push_neg at hskip
          rw [if_pos (⟨hen, hskip.1, hskip.2⟩ :
            cfg.enable_legacy_passwords = true ∧ nd ≠ "" ∧ hm.host = nd)]
          rw [hidx]
          by_cases hlen : ds.length ≤ (a - 1) / 2
          · rw [if_pos (Or.inr (by exact_mod_cast hlen))]
            rw [List.get?_eq_none.mpr hlen]
          · push_neg at hlen
            rw [if_neg (fun hcon => by
              rcases hcon with h | h
              · rw [List.isEmpty_iff] at h
                rw [h] at hlen
                simp at hlen
              · have : ((ds.length : Int)) > (((a - 1) / 2 : Nat) : Int) := by
                  exact_mod_cast hlen
                omega)]
            rw [show pyListGet ds (((a - 1) / 2 : Nat) : Int) =
                ds.get? ((a - 1) / 2) from by
              simp only [pyListGet]
              rw [if_pos (by omega), Int.toNat_natCast]]
            rcases hget : ds.get? ((a - 1) / 2) with _ | d
            · rfl
            · simp only []
              have hmod : (decide ((a : Int) % 2 = 0)) = (decide (a % 2 = 0)) := by
                by_cases hpar : a % 2 = 0
                · rw [decide_eq_true (show (a : Int) % 2 = 0 by omega),
                    decide_eq_true hpar]
                · rw [decide_eq_false (show ¬(a : Int) % 2 = 0 by omega),
                    decide_eq_false hpar]
              rw [hmod]
  · rw [if_pos (by simp [hen])]
    rcases cfg.new_domain with _ | nd
    · rfl
    · rcases cfg.legacy_domains with _ | ds
      · rfl
      · simp only []
        rw [if_neg (by simp [hen])]

/-- Claim C2 (amended): the fallback function is characterised by the
two spec-side definitions: attempt 0 yields the legacy-mode derivation
of the server's own host exactly when the feature is enabled and the
host contains more than two dots (equivalently more than three
dot-separated segments); when that test fails, attempt 0 falls through
to the domain logic with Python index `-1` (the last legacy domain in
legacy mode) whenever the host equals a nonempty new-domain marker and
the domain list is nonempty; attempts `a ≥ 1` use the domain at index
`(a-1)/2`, legacy mode exactly on even `a`, and yield no credential
exactly when the feature is disabled, the marker is absent, empty or
different from the host, or the index is past the end of the list. -/
theorem C2_fallback_order (cfg : Config) (hm : Hostmask) :
    _get_pw_attempt cfg hm 0 = fallbackSpec0 cfg hm ∧
    (∀ a : Nat, 1 ≤ a →
      _get_pw_attempt cfg hm (a : Int) = fallbackSpecPos cfg hm a) :=
  ⟨get_pw_attempt_zero cfg hm, get_pw_attempt_pos cfg hm⟩

/-! ## Lowercasing lemmas -/

theorem lowerChar_idem (c : Char) : lowerChar (lowerChar c) = lowerChar c := by
  by_cases h : 65 ≤ c.toNat ∧ c.toNat ≤ 90
  · have e1 : lowerChar c = Char.ofNat (c.toNat + 32) := by
      unfold lowerChar; rw [if_pos h]
    have h2 : (Char.ofNat (c.toNat + 32)).toNat = c.toNat + 32 :=
      char_toNat_ofNat_valid _ (by omega)
    rw [e1]
    unfold lowerChar
    rw [if_neg (by omega)]
  · have e1 : lowerChar c = c := by
      unfold lowerChar; rw [if_neg h]
    rw [e1, e1]

theorem lowerStr_idem (s : String) : lowerStr (lowerStr s) = lowerStr s := by
  unfold lowerStr
  simp [List.map_map, Function.comp_def, lowerChar_idem]

/-- Witness for C2: the characterisation evaluated at attempt 1 of a
concrete configuration. -/
theorem C2_fallback_order_witness :
    _get_pw_attempt ⟨"sec", true, some "a.b.c.d", some ["x.y.z.w"]⟩
        ⟨"srv", "id", "a.b.c.d"⟩ ((1 : Nat) : Int) =
      fallbackSpecPos ⟨"sec", true, some "a.b.c.d", some ["x.y.z.w"]⟩
        ⟨"srv", "id", "a.b.c.d"⟩ 1 :=
  (C2_fallback_order ⟨"sec", true, some "a.b.c.d", some ["x.y.z.w"]⟩
    ⟨"srv", "id", "a.b.c.d"⟩).2 1 (by omega)

/-! ## Claim C10: the PlayerList lowercase-key invariant -/

theorem plKeysLower_set (pl : PlayerList) (k : String) (v : Player)
    (h : plKeysLowerB pl = true) : plKeysLowerB (plSet pl k v) = true := by
  simp only [plKeysLowerB, List.all_eq_true] at h ⊢
  intro e he
  simp only [plSet] at he
  by_cases hc : plContains pl k
  · rw [if_pos hc] at he
    rcases List.mem_map.mp he with ⟨e0, he0, hmap⟩
    by_cases hk : e0.1 == lowerStr k
    · rw [if_pos hk] at hmap
      subst hmap
      exact h e0 he0
    · rw [if_neg hk] at hmap
      subst hmap
      exact h e0 he0
  · rw [if_neg hc] at he
    rcases List.mem_append.mp he with h1 | h1
    · exact h e h1
    · rcases List.mem_singleton.mp h1 with rfl
      simp [lowerStr_idem]

theorem plKeysLower_del (pl : PlayerList) (k : String)
    (h : plKeysLowerB pl = true) : plKeysLowerB (plDel pl k) = true := by
  simp only [plKeysLowerB, List.all_eq_true] at h ⊢
  intro e he
  exact h e (List.mem_of_mem_filter he)

theorem plKeysLower_ins (pl : PlayerList) (n : String)
    (h : plKeysLowerB pl = true) : plKeysLowerB (plPlayerIns pl n) = true := by
  simp only [plPlayerIns]
  by_cases h1 : n = ""
  · rw [if_pos h1]; exact h
  · rw [if_neg h1]
    by_cases h2 : plContains pl n
    · rw [if_pos h2]; exact h
    · rw [if_neg h2]
      exact plKeysLower_set pl n _ h

theorem plKeysLower_foldl (names : List String) (pl : PlayerList)
    (h : plKeysLowerB pl = true) :
    plKeysLowerB (names.foldl plPlayerIns pl) = true := by
  induction names generalizing pl with
  | nil => exact h
  | cons n ns ih =>
    exact ih (plPlayerIns pl n) (plKeysLower_ins pl n h)

theorem plKeysLower_snapshot (pl : PlayerList) (names : List String)
    (h : plKeysLowerB pl = true) :
    plKeysLowerB (applySnapshot pl names) = true := by
  simp only [applySnapshot]
  have h1 := plKeysLower_foldl names pl h
  simp only [plKeysLowerB, List.all_eq_true] at h1 ⊢
  intro e he
  exact h1 e (List.mem_of_mem_filter he)

/-- Claim C10: every `PlayerList` accessor lowercases its key argument
first, so lookup, membership and deletion agree on any casing of the
same name, and the all-keys-lowercase invariant is preserved by every
roster operation: insertion, deletion, the `Player_` helper driven by
incremental join lines, snapshot reconciliation, and the incremental
join/leave handler. -/
theorem C10_playerlist_case_invariant :
    (∀ pl k, plContains pl k = plContains pl (lowerStr k)) ∧
    (∀ pl k, plGet pl k = plGet pl (lowerStr k)) ∧
    (∀ pl k v, plSet pl k v = plSet pl (lowerStr k) v) ∧
    (∀ pl k, plDel pl k = plDel pl (lowerStr k)) ∧
    (∀ pl k1 k2, lowerStr k1 = lowerStr k2 →
      plGet pl k1 = plGet pl k2 ∧ plContains pl k1 = plContains pl k2 ∧
      plDel pl k1 = plDel pl k2) ∧
    (∀ pl k v, plKeysLowerB pl = true → plKeysLowerB (plSet pl k v) = true) ∧
    (∀ pl k, plKeysLowerB pl = true → plKeysLowerB (plDel pl k) = true) ∧
    (∀ pl n, plKeysLowerB pl = true → plKeysLowerB (plPlayerIns pl n) = true) ∧
    (∀ pl names, plKeysLowerB pl = true →
      plKeysLowerB (applySnapshot pl names) = true) ∧
    (∀ (st : SrvState) msg, plKeysLowerB st.players = true →
      plKeysLowerB (handleStarLine st msg).players = true) := by
  refine ⟨?_, ?_, ?_, ?_, ?_, plKeysLower_set, plKeysLower_del,
    plKeysLower_ins, plKeysLower_snapshot, ?_⟩
  · intro pl k; simp only [plContains, lowerStr_idem]
  · intro pl k; simp only [plGet, lowerStr_idem]
  · intro pl k v; simp only [plSet, plContains, lowerStr_idem]
  · intro pl k; simp only [plDel, lowerStr_idem]
  · intro pl k1 k2 h
    exact ⟨by simp only [plGet, h], by simp only [plContains, h],
      by simp only [plDel, h]⟩
  · intro st msg h
    simp only [handleStarLine]
    by_cases h1 : (pySplitN msg ' ' 3).length ≤ 2
    · rw [if_pos h1]; exact h
    · rw [if_neg h1]
      by_cases h2 : ((pySplitN msg ' ' 3).get? 2).getD "" = "joined"
      · rw [if_pos h2]
        exact plKeysLower_ins _ _ h
      · rw [if_neg h2]
        by_cases h3 : ((pySplitN msg ' ' 3).get? 2).getD "" = "left" ∧
            plContains st.players (((pySplitN msg ' ' 3).get? 1).getD "") = true
        · rw [if_pos h3]
          exact plKeysLower_del _ _ h
        · rw [if_neg h3]; exact h

/-- Witness for C10: the invariant preserved through a concrete mixed-
case insertion. -/
theorem C10_playerlist_case_invariant_witness :
    plKeysLowerB [("bob", Player.mk "Bob" 2)] = true ∧
    plKeysLowerB (plSet [("bob", Player.mk "Bob" 2)] "ALICE" (Player.mk "ALICE" 2)) = true :=
  ⟨by decide, C10_playerlist_case_invariant.2.2.2.2.2.1
    [("bob", Player.mk "Bob" 2)] "ALICE" (Player.mk "ALICE" 2) (by decide)⟩

/-! ## Claim C9: the players-command rate limiter -/

theorem noticesOk_runGate (cd : Rat) (trace : List (Rat × Rat)) :
    ∀ st : RLState, noticesOkAux st.msgSent (runGate cd st trace) = true := by
  induction trace with
  | nil => intro st; rfl
  | cons r rs ih =>
    intro st
    simp only [runGate, playersCmdGate]
    rcases hl : st.last with _ | l
    · simp only [hl]
      rw [if_neg (by simp)]
      simp only [noticesOkAux]
      exact ih ⟨some (r.1 + r.2), false⟩
    · simp only [hl]
      by_cases hw : r.1 ≤ l + cd
      · simp only [decide_eq_true hw, if_true]
        by_cases hs : st.msgSent
        · rw [if_pos hs]
          simp only [noticesOkAux]
          exact ih st
        · rw [if_neg hs]
          simp only [noticesOkAux]
          rw [if_neg hs]
          exact ih ⟨some l, true⟩
      · simp only [decide_eq_false (by exact hw)]
        rw [if_neg (by simp)]
        simp only [noticesOkAux]
        exact ih ⟨some (r.1 + r.2), false⟩

/-- Claim C9: a request within `cooldown` seconds of the recorded
start of the last accepted request is rejected; one outside the window
(or with no recorded start) is accepted, records its start plus the
pacing advance, and clears the sent-flag; a rejection notifies exactly
when the flag is clear, and sets it, so a second rejection in the same
window is silent and a post-reopening rejection may notify again; and
over any request trace no cooldown window ever produces two
notices. -/
theorem C9_rate_limiter :
    (∀ cd (st : RLState) t pacing l, st.last = some l → t ≤ l + cd →
      (playersCmdGate cd st t pacing).2 ≠ RLEvent.accepted) ∧
    (∀ cd (st : RLState) t pacing l, st.last = some l → l + cd < t →
      playersCmdGate cd st t pacing = (⟨some (t + pacing), false⟩, RLEvent.accepted)) ∧
    (∀ cd (st : RLState) t pacing, st.last = none →
      playersCmdGate cd st t pacing = (⟨some (t + pacing), false⟩, RLEvent.accepted)) ∧
    (∀ cd (st : RLState) t pacing l, st.last = some l → t ≤ l + cd →
      st.msgSent = false →
      playersCmdGate cd st t pacing =
        ({ st with msgSent := true }, RLEvent.rejectedNotice)) ∧
    (∀ cd (st : RLState) t pacing l, st.last = some l → t ≤ l + cd →
      st.msgSent = true →
      playersCmdGate cd st t pacing = (st, RLEvent.rejectedSilent)) ∧
    (∀ cd (st : RLState) t pacing t2 p2,
      (playersCmdGate cd st t pacing).2 = RLEvent.accepted →
      t2 ≤ t + pacing + cd →
      (playersCmdGate cd (playersCmdGate cd st t pacing).1 t2 p2).2 =
        RLEvent.rejectedNotice) ∧
    (∀ cd (st : RLState) trace, st.msgSent = false →
      noticesOk (runGate cd st trace) = true) := by
  have hacc : ∀ cd (st : RLState) t pacing,
      (playersCmdGate cd st t pacing).2 = RLEvent.accepted →
      (playersCmdGate cd st t pacing).1 = ⟨some (t + pacing), false⟩ := by
    intro cd st t pacing h
    rcases hl : st.last with _ | l
    · simp only [playersCmdGate, hl]
      rw [if_neg (by simp)]
    · simp only [playersCmdGate, hl] at h ⊢
      by_cases hw : t ≤ l + cd
      · simp only [decide_eq_true hw, if_true] at h
        by_cases hs : st.msgSent
        · rw [if_pos hs] at h; exact absurd h (by simp)
        · rw [if_neg hs] at h; exact absurd h (by simp)
      · simp only [decide_eq_false (by exact hw)]
        rw [if_neg (by simp)]
  refine ⟨?_, ?_, ?_, ?_, ?_, ?_, ?_⟩
  · intro cd st t pacing l hl hle
    simp only [playersCmdGate, hl, decide_eq_true hle, if_true]
    by_cases hs : st.msgSent
    · rw [if_pos hs]; simp
    · rw [if_neg hs]; simp
  · intro cd st t pacing l hl hgt
    simp only [playersCmdGate, hl, decide_eq_false (not_le.mpr hgt)]
    rw [if_neg (by simp)]
  · intro cd st t pacing hl
    simp only [playersCmdGate, hl]
    rw [if_neg (by simp)]
  · intro cd st t pacing l hl hle hs
    simp only [playersCmdGate, hl, decide_eq_true hle, if_true]
    rw [if_neg (by simp [hs])]
  · intro cd st t pacing l hl hle hs
    simp only [playersCmdGate, hl, decide_eq_true hle, if_true]
    rw [if_pos hs]
  · intro cd st t pacing t2 p2 h hle
    rw [hacc cd st t pacing h]
    simp only [playersCmdGate, decide_eq_true (by exact hle : t2 ≤ t + pacing + cd),
      if_true]
    rw [if_neg (by simp)]
  · intro cd st trace hs
    have := noticesOk_runGate cd trace st
    rw [hs] at this
    exact this

/-- Witness for C9 on a concrete trace: requests at times 0, 10, 12
(cooldown 15) produce accept, notice, silence, and the window check
holds. -/
theorem C9_rate_limiter_witness :
    runGate 15 ⟨none, false⟩ [(0, 0), (10, 0), (12, 0)] =
      [RLEvent.accepted, RLEvent.rejectedNotice, RLEvent.rejectedSilent] ∧
    noticesOk (runGate 15 ⟨none, false⟩ [(0, 0), (10, 0), (12, 0)]) = true ∧
    (playersCmdGate 15 ⟨some 3, true⟩ 10 0).2 ≠ RLEvent.accepted := by
  refine ⟨?_, C9_rate_limiter.2.2.2.2.2.2 15 ⟨none, false⟩ _ rfl,
    C9_rate_limiter.1 15 ⟨some 3, true⟩ 10 0 3 rfl (by norm_num)⟩
  have h1 := C9_rate_limiter.2.2.1 15 ⟨none, false⟩ 0 0 rfl
  have h2 := C9_rate_limiter.2.2.2.1 15 (⟨some (0 + 0), false⟩ : RLState) 10 0
    (0 + 0) rfl (by norm_num) rfl
  have h3 := C9_rate_limiter.2.2.2.2.1 15
    ({ (⟨some (0 + 0), false⟩ : RLState) with msgSent := true }) 12 0
    (0 + 0) rfl (by norm_num) rfl
  simp only [runGate, h1, h2, h3]

/-! ## Claim C4: credential rotation on login success -/

/-- Claim C4 counterexample: after the snapshot-triggered very first
login request (which leaves `logged_in` unset and the attempt counter
at 0), a login-succeeded reply sends NO credential-rotation command at
all — the message list is empty and the state just becomes confirmed.
The rotation at attempt 0 exists only for the manual admin login path,
which stores the integer-0 sentinel. -/
theorem C4_counterexample :
    handleSnapshotLine ⟨"sec", true, none, none⟩ ⟨"srv", "id", "h.example.net"⟩
        ⟨[], LoggedIn.unset, 0⟩ "" =
      (⟨[], LoggedIn.unset, 0⟩,
       [Msg.login (get_password "sec" ⟨"srv", "id", "h.example.net"⟩ false)]) ∧
    handleSuccessLine ⟨"sec", true, none, none⟩ ⟨"srv", "id", "h.example.net"⟩
        ⟨[], LoggedIn.unset, 0⟩ =
      (⟨[], LoggedIn.ltrue, 0⟩, []) ∧
    hasSetpassword (handleSuccessLine ⟨"sec", true, none, none⟩
      ⟨"srv", "id", "h.example.net"⟩ ⟨[], LoggedIn.unset, 0⟩).2 = false := by
  refine ⟨by decide, by decide, by decide⟩

/-- Claim C4 (amended): a snapshot from a server with unset login state
sends the first login request but leaves the state unset at attempt 0;
a login-succeeded reply in that state sends no rotation command and
just confirms; a login-succeeded reply after a nonzero attempt counter
sends the rotation command (setpassword with the current-mode
credential) and clears the counter before confirming; and in the
manual-login sentinel state the rotation command plus the announcement
are sent.  A literal login-succeeded line routes to this handler
whenever moderation is enabled. -/
theorem C4_rotation_on_success (cfg : Config) (hm : Hostmask)
    (st : SrvState) (grp : String) :
    (st.logged_in = LoggedIn.unset → cfg.secret ≠ "" →
      (handleSnapshotLine cfg hm st grp).1.logged_in = LoggedIn.unset ∧
      (handleSnapshotLine cfg hm st grp).1.password_attempt = st.password_attempt ∧
      (handleSnapshotLine cfg hm st grp).2 =
        [Msg.login (get_password cfg.secret hm false)]) ∧
    (st.logged_in = LoggedIn.unset → st.password_attempt = 0 →
      handleSuccessLine cfg hm st = ({ st with logged_in := LoggedIn.ltrue }, []) ∧
      hasSetpassword (handleSuccessLine cfg hm st).2 = false) ∧
    (st.logged_in ≠ LoggedIn.zeroInt → st.password_attempt ≠ 0 →
      handleSuccessLine cfg hm st =
        ({ st with password_attempt := 0, logged_in := LoggedIn.ltrue },
         [Msg.setpassword (get_password cfg.secret hm false)])) ∧
    (st.logged_in = LoggedIn.zeroInt →
      handleSuccessLine cfg hm st =
        ({ st with logged_in := LoggedIn.ltrue },
         [Msg.setpassword (get_password cfg.secret hm false), Msg.luaSayLoggedIn])) ∧
    (cfg.secret ≠ "" →
      handleServerMsg cfg hm st "You are now logged in as trackr." =
        handleSuccessLine cfg hm st) := by
  refine ⟨?_, ?_, ?_, ?_, ?_⟩
  · intro hli hsec
    simp only [handleSnapshotLine]
    rw [if_pos ⟨hli, hsec⟩]
    exact ⟨hli, trivial, rfl⟩
  · intro hli hpa
    have h : handleSuccessLine cfg hm st = ({ st with logged_in := LoggedIn.ltrue }, []) := by
      simp only [handleSuccessLine]
      rw [if_neg (by rw [hli]; intro h; cases h), if_neg (by rw [hpa]; simp)]
    exact ⟨h, by rw [h]; rfl⟩
  · intro hli hpa
    simp only [handleSuccessLine]
    rw [if_neg hli, if_pos hpa]
  · intro hli
    simp only [handleSuccessLine]
    rw [if_pos hli]
  · intro hsec
    simp only [handleServerMsg]
    rw [if_neg (by decide)]
    rw [show matchSnapshot "You are now logged in as trackr." = none from by decide]
    simp only []
    rw [if_pos ⟨by decide, hsec⟩]

/-- Witness for C4: rotation sent on success after a nonzero attempt
counter, and no rotation after the snapshot-triggered first login. -/
theorem C4_rotation_on_success_witness :
    handleSuccessLine ⟨"sec", true, none, none⟩ ⟨"srv", "id", "h.example.net"⟩
        ⟨[], LoggedIn.unset, 1⟩ =
      (⟨[], LoggedIn.ltrue, 0⟩,
       [Msg.setpassword (get_password "sec" ⟨"srv", "id", "h.example.net"⟩ false)]) :=
  (C4_rotation_on_success ⟨"sec", true, none, none⟩ ⟨"srv", "id", "h.example.net"⟩
    ⟨[], LoggedIn.unset, 1⟩ "").2.2.1 (by decide) (by decide)

/-! ## Claim C7: target resolution without a server qualifier -/

theorem findVictimGo_none (victim : String) :
    ∀ (ss : List SrvData) (found : Option SrvData),
      (∀ s ∈ ss, srvHasVictim s victim = false) →
      findVictimGo victim found ss = Except.ok found := by
  intro ss
  induction ss with
  | nil => intro found _; rfl
  | cons s t ih =>
    intro found hall
    simp only [findVictimGo]
    rw [if_neg (by simp [hall s (by simp)])]
    exact ih found (fun x hx => hall x (by simp [hx]))

theorem findVictimGo_conflict (victim : String) :
    ∀ (ss : List SrvData) (s0 : SrvData),
      (∃ s ∈ ss, srvHasVictim s victim = true) →
      findVictimGo victim (some s0) ss =
        Except.error "Error: That player is in multiple servers!" := by
  intro ss
  induction ss with
  | nil => rintro s0 ⟨s, hs, _⟩; cases hs
  | cons s t ih =>
    rintro s0 ⟨x, hx, hhas⟩
    simp only [findVictimGo]
    by_cases h : srvHasVictim s victim
    · rw [if_pos h]
    · rw [if_neg h]
      rcases List.mem_cons.mp hx with rfl | hx2
      · exact absurd hhas (by simp [h])
      · exact ih s0 ⟨x, hx2, hhas⟩

theorem findVictim_characterization (victim : String) (ss : List SrvData) :
    (ss.countP (fun s => srvHasVictim s victim) = 0 →
      findVictim ss victim = Except.ok none) ∧
    (ss.countP (fun s => srvHasVictim s victim) = 1 →
      ∃ s ∈ ss, srvHasVictim s victim = true ∧
        findVictim ss victim = Except.ok (some s)) ∧
    (2 ≤ ss.countP (fun s => srvHasVictim s victim) →
      findVictim ss victim =
        Except.error "Error: That player is in multiple servers!") := by
  unfold findVictim
  induction ss with
  | nil =>
    refine ⟨fun _ => rfl, by simp, ?_⟩
    intro h
    rw [List.countP_nil] at h
    omega
  | cons s t ih =>
    by_cases h : srvHasVictim s victim
    · have hc : (s :: t).countP (fun x => srvHasVictim x victim) =
          t.countP (fun x => srvHasVictim x victim) + 1 := by
        rw [List.countP_cons]
        simp [h]
      refine ⟨?_, ?_, ?_⟩
      · intro h0; rw [hc] at h0; omega
      · intro h1
        rw [hc] at h1
        have ht0 : t.countP (fun x => srvHasVictim x victim) = 0 := by omega
        refine ⟨s, by simp, h, ?_⟩
        simp only [findVictimGo]
        rw [if_pos h]
        apply findVictimGo_none
        intro x hx
        by_contra hcon
        rw [Bool.not_eq_false] at hcon
        have h2 : 0 < t.countP (fun x => srvHasVictim x victim) :=
          List.countP_pos_iff.mpr ⟨x, hx, by simp [hcon]⟩
        omega
      · intro h2
        rw [hc] at h2
        have ht1 : 1 ≤ t.countP (fun x => srvHasVictim x victim) := by omega
        have hex : ∃ x ∈ t, srvHasVictim x victim = true := by
          rcases List.countP_pos_iff.mp
            (show 0 < t.countP (fun x => srvHasVictim x victim) by omega) with
            ⟨x, hx, hpx⟩
          exact ⟨x, hx, by simpa using hpx⟩
        simp only [findVictimGo]
        rw [if_pos h]
        exact findVictimGo_conflict victim t s hex
    · have hc : (s :: t).countP (fun x => srvHasVictim x victim) =
          t.countP (fun x => srvHasVictim x victim) := by
        rw [List.countP_cons]
        simp [h]
      have hstep : findVictimGo victim none (s :: t) = findVictimGo victim none t := by
        simp only [findVictimGo]
        rw [if_neg h]
      refine ⟨?_, ?_, ?_⟩
      · intro h0; rw [hc] at h0; rw [hstep]; exact ih.1 h0
      · intro h1
        rw [hc] at h1
        rcases ih.2.1 h1 with ⟨x, hx, hhas, heq⟩
        exact ⟨x, by simp [hx], hhas, by rw [hstep]; exact heq⟩
      · intro h2
        rw [hc] at h2
        rw [hstep]
        exact ih.2.2 h2

theorem plContains_plGet (pl : PlayerList) (v : String)
    (h : plContains pl v = true) : ∃ p, plGet pl v = some p := by
  simp only [plContains, List.any_eq_true] at h
  rcases h with ⟨e, he, hk⟩
  have : (pl.find? (fun x => x.1 == lowerStr v)).isSome := by
    rw [List.find?_isSome]
    exact ⟨e, he, hk⟩
  rcases Option.isSome_iff_exists.mp this with ⟨x, hx⟩
  exact ⟨x.2, by simp only [plGet, hx]; rfl⟩

/-- Claim C7: for a moderation invocation whose target token contains
no at-sign (with moderation enabled and an authorized invoker), the
processor searches every server roster: no roster containing the name
gives the unknown-player reply, two or more give the ambiguity error,
and exactly one resolves to that server's player, after which only the
logged-in check and the per-command dispatch decide the reply — in
every case a user-visible string is returned. -/
theorem C7_moderation_resolution (cfg : Config) (sender : String)
    (servers : List SrvData) (cmd param : String)
    (hsec : cfg.secret ≠ "")
    (_hat : pyHasChar (lowerStr (((pySplitN param ' ' 1).get? 0).getD "")) '@' = false) :
    (servers.countP
        (fun s => srvHasVictim s (lowerStr (((pySplitN param ' ' 1).get? 0).getD ""))) = 0 →
      _moderate cfg sender true servers cmd param = "Unknown player!") ∧
    (2 ≤ servers.countP
        (fun s => srvHasVictim s (lowerStr (((pySplitN param ' ' 1).get? 0).getD ""))) →
      _moderate cfg sender true servers cmd param =
        "Error: That player is in multiple servers!") ∧
    (servers.countP
        (fun s => srvHasVictim s (lowerStr (((pySplitN param ' ' 1).get? 0).getD ""))) = 1 →
      ∃ s player, s ∈ servers ∧
        srvHasVictim s (lowerStr (((pySplitN param ' ' 1).get? 0).getD "")) = true ∧
        plGet (s.players.getD [])
          (lowerStr (((pySplitN param ' ' 1).get? 0).getD "")) = some player ∧
        _moderate cfg sender true servers cmd param =
          (if s.logged_in ≠ LoggedIn.ltrue then "I am not logged into " ++ s.nick ++ "!"
           else (moderateDispatch cmd player sender
             ((pySplitN param ' ' 1).getLast?.getD "")).1)) := by
  have hchar := findVictim_characterization
    (lowerStr (((pySplitN param ' ' 1).get? 0).getD "")) servers
  refine ⟨?_, ?_, ?_⟩
  · intro h0
    simp only [_moderate]
    rw [if_neg hsec, if_neg (by simp)]
    rw [hchar.1 h0]
  · intro h2
    simp only [_moderate]
    rw [if_neg hsec, if_neg (by simp)]
    rw [hchar.2.2 h2]
  · intro h1
    rcases hchar.2.1 h1 with ⟨s, hs, hhas, heq⟩
    have hpl : ∃ pl, s.players = some pl ∧ ¬ pl.isEmpty ∧
        plContains pl (lowerStr (((pySplitN param ' ' 1).get? 0).getD "")) = true := by
      revert hhas
      simp only [srvHasVictim]
      rcases s.players with _ | pl
      · intro h; cases h
      · intro h
        simp only [Bool.and_eq_true, decide_eq_true_eq] at h
        exact ⟨pl, rfl, by simp [h.1], h.2⟩
    rcases hpl with ⟨pl, hple, _, hcont⟩
    rcases plContains_plGet pl _ hcont with ⟨player, hget⟩
    refine ⟨s, player, hs, hhas, by rw [hple]; exact hget, ?_⟩
    simp only [_moderate]
    rw [if_neg hsec, if_neg (by simp)]
    rw [heq]
    simp only []
    by_cases hli : s.logged_in = LoggedIn.ltrue
    · rw [if_neg (by simp [hli])]
      rw [if_neg (by simp [hli])]
      rw [show s.players.getD [] = pl from by rw [hple]; rfl]
      rw [hget]
    · rw [if_pos (by simp [hli])]
      rw [if_pos (by simp [hli])]

/-- Witness for C7: a channel with one server whose roster contains the
target resolves to that server and dispatches. -/
theorem C7_moderation_resolution_witness :
    ∃ s player,
      s ∈ [SrvData.mk "S1" (some [("bob", Player.mk "Bob" 2)]) LoggedIn.ltrue] ∧
      srvHasVictim s (lowerStr (((pySplitN "bob" ' ' 1).get? 0).getD "")) = true ∧
      plGet (s.players.getD [])
        (lowerStr (((pySplitN "bob" ' ' 1).get? 0).getD "")) = some player ∧
      _moderate ⟨"sec", true, none, none⟩ "op" true
          [SrvData.mk "S1" (some [("bob", Player.mk "Bob" 2)]) LoggedIn.ltrue]
          "mute" "bob" =
        (if s.logged_in ≠ LoggedIn.ltrue then "I am not logged into " ++ s.nick ++ "!"
         else (moderateDispatch "mute" player "op"
           ((pySplitN "bob" ' ' 1).getLast?.getD "")).1) :=
  (C7_moderation_resolution ⟨"sec", true, none, none⟩ "op"
    [SrvData.mk "S1" (some [("bob", Player.mk "Bob" 2)]) LoggedIn.ltrue]
    "mute" "bob" (by decide) (by decide)).2.2 (by decide)

/-! ## Claim C1: snapshot reconciliation -/

theorem plPlayerIns_eq (pl : PlayerList) (n : String) :
    plPlayerIns pl n = pl ∨
    (n ≠ "" ∧ plContains pl n = false ∧
      plPlayerIns pl n = pl ++ [(lowerStr n, Player.mk n Player.total_warnings)]) := by
  simp only [plPlayerIns]
  by_cases h1 : n = ""
  · left; rw [if_pos h1]
  · rw [if_neg h1]
    by_cases h2 : plContains pl n
    · left; rw [if_pos h2]
    · right
      refine ⟨h1, by simpa using h2, ?_⟩
      rw [if_neg h2]
      simp only [plSet]
      rw [if_neg h2]

theorem foldl_ins_exists (names : List String) :
    ∀ pl : PlayerList,
      ∃ ext : PlayerList, names.foldl plPlayerIns pl = pl ++ ext ∧
        ∀ e ∈ ext, ∃ n, n ∈ names ∧ n ≠ "" ∧
          e = (lowerStr n, Player.mk n Player.total_warnings) := by
  induction names with
  | nil => intro pl; exact ⟨[], by simp, by simp⟩
  | cons n ns ih =>
    intro pl
    simp only [List.foldl_cons]
    rcases plPlayerIns_eq pl n with h | ⟨hne, _, h⟩
    · rcases ih (plPlayerIns pl n) with ⟨ext, he, hm⟩
      refine ⟨ext, by rw [he, h], ?_⟩
      intro e hee
      rcases hm e hee with ⟨x, hx1, hx2, hx3⟩
      exact ⟨x, List.mem_cons_of_mem n hx1, hx2, hx3⟩
    · rcases ih (plPlayerIns pl n) with ⟨ext, he, hm⟩
      refine ⟨(lowerStr n, Player.mk n Player.total_warnings) :: ext, ?_, ?_⟩
      · rw [he, h]; simp
      · intro e hee
        rcases List.mem_cons.mp hee with rfl | h2
        · exact ⟨n, by simp, hne, rfl⟩
        · rcases hm e h2 with ⟨x, hx1, hx2, hx3⟩
          exact ⟨x, by simp [hx1], hx2, hx3⟩

theorem contains_key_congr (pl : PlayerList) (k1 k2 : String)
    (h : lowerStr k1 = lowerStr k2) : plContains pl k1 = plContains pl k2 := by
  simp only [plContains, h]

theorem contains_foldl_iff (names : List String) (k : String) :
    ∀ pl : PlayerList,
      (plContains (names.foldl plPlayerIns pl) k = true ↔
        (plContains pl k = true ∨
          ∃ n ∈ names, n ≠ "" ∧ lowerStr n = lowerStr k)) := by
  induction names with
  | nil => intro pl; simp
  | cons n ns ih =>
    intro pl
    simp only [List.foldl_cons]
    rw [ih (plPlayerIns pl n)]
    constructor
    · rintro (h | ⟨x, hx, hxe, hxl⟩)
      · rcases plPlayerIns_eq pl n with he | ⟨hne, _, he⟩
        · rw [he] at h; exact Or.inl h
        · rw [he] at h
          simp only [plContains, List.any_append, Bool.or_eq_true] at h
          rcases h with h1 | h1
          · exact Or.inl (by simpa [plContains] using h1)
          · simp only [List.any_cons, List.any_nil, Bool.or_false] at h1
            have hnk : lowerStr n = lowerStr k := of_decide_eq_true (by simpa using h1)
            exact Or.inr ⟨n, by simp, hne, hnk⟩
      · exact Or.inr ⟨x, List.mem_cons_of_mem n hx, hxe, hxl⟩
    · rintro (h | ⟨x, hx, hxe, hxl⟩)
      · left
        rcases plPlayerIns_eq pl n with he | ⟨_, _, he⟩ <;> rw [he]
        · exact h
        · simp only [plContains, List.any_append, Bool.or_eq_true]
          exact Or.inl (by simpa [plContains] using h)
      · rcases List.mem_cons.mp hx with rfl | hx2
        · left
          by_cases hc : plContains pl x
          · rcases plPlayerIns_eq pl x with he | ⟨_, hnc, _⟩
            · rw [he]
              rw [contains_key_congr pl k x hxl.symm]
              exact hc
            · rw [hc] at hnc; cases hnc
          · have hins : plPlayerIns pl x =
                pl ++ [(lowerStr x, Player.mk x Player.total_warnings)] := by
              simp only [plPlayerIns]
              rw [if_neg hxe, if_neg hc]
              simp only [plSet]
              rw [if_neg hc]
            rw [hins]
            simp only [plContains, List.any_append, Bool.or_eq_true]
            right
            simp [hxl]
        · exact Or.inr ⟨x, hx2, hxe, hxl⟩

theorem keys_nodup_ins (pl : PlayerList) (n : String)
    (h : (pl.map Prod.fst).Nodup) :
    ((plPlayerIns pl n).map Prod.fst).Nodup := by
  rcases plPlayerIns_eq pl n with he | ⟨_, hnc, he⟩ <;> rw [he]
  · exact h
  · rw [List.map_append, List.nodup_append]
    refine ⟨h, by simp, ?_⟩
    intro x hx hx2
    simp only [List.map_cons, List.map_nil, List.mem_singleton] at hx2
    subst hx2
    rcases List.mem_map.mp hx with ⟨e, he2, hef⟩
    have hcon : plContains pl n = true := by
      simp only [plContains, List.any_eq_true]
      exact ⟨e, he2, by rw [hef]; simp⟩
    rw [hcon] at hnc
    cases hnc

theorem keys_nodup_foldl (names : List String) :
    ∀ pl : PlayerList, (pl.map Prod.fst).Nodup →
      ((names.foldl plPlayerIns pl).map Prod.fst).Nodup := by
  induction names with
  | nil => intro pl h; exact h
  | cons n ns ih =>
    intro pl h
    exact ih (plPlayerIns pl n) (keys_nodup_ins pl n h)

theorem plGet_mem_nodup :
    ∀ pl : PlayerList, (pl.map Prod.fst).Nodup →
      ∀ e ∈ pl, lowerStr e.1 = e.1 → plGet pl e.1 = some e.2 := by
  intro pl
  induction pl with
  | nil => intro _ e he; cases he
  | cons a t ih =>
    intro hnd e he hlow
    rcases List.mem_cons.mp he with rfl | he2
    · simp only [plGet]
      rw [List.find?_cons_of_pos _ (by simp [hlow])]
      rfl
    · have hkey : a.1 ≠ e.1 := by
        intro hcon
        rw [List.map_cons, List.nodup_cons] at hnd
        exact hnd.1 (hcon ▸ List.mem_map.mpr ⟨e, he2, rfl⟩)
      simp only [plGet]
      rw [List.find?_cons_of_neg _ (by simp [hlow, hkey])]
      have hrec := ih (by rw [List.map_cons, List.nodup_cons] at hnd; exact hnd.2) e he2 hlow
      simpa [plGet] using hrec

theorem foldl_ins_noop (names : List String) :
    ∀ pl : PlayerList, (∀ n ∈ names, n = "" ∨ plContains pl n = true) →
      names.foldl plPlayerIns pl = pl := by
  induction names with
  | nil => intro pl _; rfl
  | cons n ns ih =>
    intro pl hall
    simp only [List.foldl_cons]
    have hstep : plPlayerIns pl n = pl := by
      simp only [plPlayerIns]
      by_cases h1 : n = ""
      · rw [if_pos h1]
      · rw [if_neg h1]
        rcases hall n (by simp) with h | h
        · exact absurd h h1
        · rw [if_pos h]
    rw [hstep]
    exact ih pl (fun x hx => hall x (by simp [hx]))

/-- Claim C1 counterexample: a roster storing a player as the string
with capital A under the lowercase key, given a snapshot listing the
same name in all-capitals, ends up EMPTY: the insert pass preserves the
old object (case-insensitive hit) but the deletion pass compares the
stored spelling against the list case-sensitively and deletes it.
Applying the same snapshot twice then differs from applying it once, so
neither the membership claim nor idempotence holds as stated. -/
theorem C1_counterexample :
    applySnapshot [("alice", Player.mk "Alice" 5)] ["ALICE"] = [] ∧
    plContains (applySnapshot [("alice", Player.mk "Alice" 5)] ["ALICE"]) "ALICE" = false ∧
    applySnapshot (applySnapshot [("alice", Player.mk "Alice" 5)] ["ALICE"]) ["ALICE"] ≠
      applySnapshot [("alice", Player.mk "Alice" 5)] ["ALICE"] := by
  refine ⟨by decide, by decide, by decide⟩

/-- Claim C1 (amended): under the proviso that every listed name that
is already tracked (case-insensitively) is stored with exactly the
listed spelling — together with the roster well-formedness invariants
(lowercase keys matching the stored spelling, unique keys) and no empty
listed name — processing a full snapshot leaves the roster containing
exactly the listed names (keyed case-insensitively): already-present
players keep their object and warning counter, absent names are
inserted fresh with the default counter, previously-tracked players not
listed are removed, and applying the same snapshot twice equals
applying it once.  Without the proviso the deletion pass removes a
player whose stored spelling differs in case from the listed one. -/
theorem C1_snapshot_reconciliation (pl : PlayerList) (names : List String)
    (hWF : ∀ e ∈ pl, e.1 = lowerStr e.2.name)
    (hND : (pl.map Prod.fst).Nodup)
    (hNE : "" ∉ names)
    (hCase : ∀ e ∈ pl, (∃ n ∈ names, lowerStr n = e.1) → e.2.name ∈ names) :
    (∀ s, plContains (applySnapshot pl names) s = true ↔
      ∃ n ∈ names, lowerStr n = lowerStr s) ∧
    (∀ e ∈ pl, e.2.name ∈ names →
      plGet (applySnapshot pl names) e.1 = some e.2) ∧
    (∀ n ∈ names, plContains pl n = false →
      ∃ p, plGet (applySnapshot pl names) n = some p ∧
        p.warnings = Player.total_warnings ∧ lowerStr p.name = lowerStr n ∧
        p.name ∈ names) ∧
    applySnapshot (applySnapshot pl names) names = applySnapshot pl names := by
  rcases foldl_ins_exists names pl with ⟨ext, hfold, hext⟩
  have hWF1 : ∀ e ∈ names.foldl plPlayerIns pl, e.1 = lowerStr e.2.name := by
    intro e he
    rw [hfold] at he
    rcases List.mem_append.mp he with h | h
    · exact hWF e h
    · rcases hext e h with ⟨n, _, _, rfl⟩
      rfl
  have hND1 : ((names.foldl plPlayerIns pl).map Prod.fst).Nodup :=
    keys_nodup_foldl names pl hND
  have hkeyfix : ∀ e ∈ names.foldl plPlayerIns pl, lowerStr e.1 = e.1 := by
    intro e he
    rw [hWF1 e he, lowerStr_idem]
  have hmemres : ∀ e, e ∈ applySnapshot pl names ↔
      (e ∈ names.foldl plPlayerIns pl ∧ e.2.name ∈ names) := by
    intro e
    simp only [applySnapshot, List.mem_filter]
    constructor
    · rintro ⟨h1, h2⟩
      exact ⟨h1, by simpa using h2⟩
    · rintro ⟨h1, h2⟩
      exact ⟨h1, by simpa using h2⟩
  have hNDres : ((applySnapshot pl names).map Prod.fst).Nodup := by
    have hsub : List.Sublist ((applySnapshot pl names).map Prod.fst)
        ((names.foldl plPlayerIns pl).map Prod.fst) := by
      simp only [applySnapshot]
      exact (List.filter_sublist _).map Prod.fst
    exact hND1.sublist hsub
  have hmembership : ∀ s, plContains (applySnapshot pl names) s = true ↔
      ∃ n ∈ names, lowerStr n = lowerStr s := by
    intro s
    constructor
    · intro h
      simp only [plContains, List.any_eq_true] at h
      rcases h with ⟨e, he, hk⟩
      rcases (hmemres e).mp he with ⟨he1, he2⟩
      have hkey : e.1 = lowerStr s := of_decide_eq_true (by simpa using hk)
      refine ⟨e.2.name, he2, ?_⟩
      rw [← hWF1 e he1, hkey]
    · rintro ⟨n, hn, hnl⟩
      have hne : n ≠ "" := fun hcon => hNE (hcon ▸ hn)
      have hc1 : plContains (names.foldl plPlayerIns pl) n = true :=
        (contains_foldl_iff names n pl).mpr (Or.inr ⟨n, hn, hne, rfl⟩)
      simp only [plContains, List.any_eq_true] at hc1
      rcases hc1 with ⟨e, he, hk⟩
      have hkey : e.1 = lowerStr n := of_decide_eq_true (by simpa using hk)
      have hname : e.2.name ∈ names := by
        have he2 := he
        rw [hfold] at he2
        rcases List.mem_append.mp he2 with h | h
        · exact hCase e h ⟨n, hn, hkey.symm⟩
        · rcases hext e h with ⟨x, hx1, _, hx3⟩
          rw [hx3]
          exact hx1
      have heres : e ∈ applySnapshot pl names := (hmemres e).mpr ⟨he, hname⟩
      simp only [plContains, List.any_eq_true]
      refine ⟨e, heres, ?_⟩
      rw [hkey, hnl]
      simp
  have hpreserve : ∀ e ∈ pl, e.2.name ∈ names →
      plGet (applySnapshot pl names) e.1 = some e.2 := by
    intro e he hn
    have he1 : e ∈ names.foldl plPlayerIns pl := by
      rw [hfold]
      exact List.mem_append.mpr (Or.inl he)
    have heres : e ∈ applySnapshot pl names := (hmemres e).mpr ⟨he1, hn⟩
    exact plGet_mem_nodup (applySnapshot pl names) hNDres e heres (hkeyfix e he1)
  refine ⟨hmembership, hpreserve, ?_, ?_⟩
  · intro n hn hnc
    have hne : n ≠ "" := fun hcon => hNE (hcon ▸ hn)
    have hc1 : plContains (names.foldl plPlayerIns pl) n = true :=
      (contains_foldl_iff names n pl).mpr (Or.inr ⟨n, hn, hne, rfl⟩)
    simp only [plContains, List.any_eq_true] at hc1
    rcases hc1 with ⟨e, he, hk⟩
    have hkey : e.1 = lowerStr n := of_decide_eq_true (by simpa using hk)
    have hnotpl : e ∉ pl := by
      intro hcon
      have hcc : plContains pl n = true := by
        simp only [plContains, List.any_eq_true]
        exact ⟨e, hcon, hk⟩
      rw [hcc] at hnc
      cases hnc
    have hextmem : e ∈ ext := by
      have he2 := he
      rw [hfold] at he2
      rcases List.mem_append.mp he2 with h | h
      · exact absurd h hnotpl
      · exact h
    rcases hext e hextmem with ⟨x, hx1, _, hx3⟩
    have heres : e ∈ applySnapshot pl names :=
      (hmemres e).mpr ⟨he, by rw [hx3]; exact hx1⟩
    have hget := plGet_mem_nodup (applySnapshot pl names) hNDres e heres
      (hkeyfix e he)
    refine ⟨e.2, ?_, by rw [hx3], ?_, by rw [hx3]; exact hx1⟩
    · have hkk : lowerStr n = lowerStr e.1 := by rw [hkey, lowerStr_idem]
      simp only [plGet] at hget ⊢
      rw [hkk]
      exact hget
    · rw [← hWF1 e he, hkey]
  · have hall : ∀ n ∈ names, n = "" ∨
        plContains (applySnapshot pl names) n = true :=
      fun n hn => Or.inr ((hmembership n).mpr ⟨n, hn, rfl⟩)
    show (names.foldl plPlayerIns (applySnapshot pl names)).filter
        (fun e => names.contains e.2.name) = applySnapshot pl names
    rw [foldl_ins_noop names (applySnapshot pl names) hall]
    apply List.filter_eq_self.mpr
    intro e he
    rcases (hmemres e).mp he with ⟨_, hn⟩
    simpa using hn

/-- Witness for C1 at a concrete roster and snapshot. -/
theorem C1_snapshot_reconciliation_witness :
    plContains (applySnapshot [("alice", Player.mk "Alice" 5)] ["Alice", "Bob"]) "BOB" = true ∧
    plGet (applySnapshot [("alice", Player.mk "Alice" 5)] ["Alice", "Bob"]) "alice" =
      some (Player.mk "Alice" 5) ∧
    applySnapshot (applySnapshot [("alice", Player.mk "Alice" 5)] ["Alice", "Bob"])
        ["Alice", "Bob"] =
      applySnapshot [("alice", Player.mk "Alice" 5)] ["Alice", "Bob"] := by
  have h := C1_snapshot_reconciliation [("alice", Player.mk "Alice" 5)] ["Alice", "Bob"]
    (by decide) (by decide) (by decide) (by decide)
  refine ⟨(h.1 "BOB").mpr ⟨"Bob", by decide, by decide⟩, ?_, h.2.2.2⟩
  exact h.2.1 ("alice", Player.mk "Alice" 5) (by decide) (by decide)

/-! ## Claim C3: the authentication fallback run -/

theorem credOfHost_inj (secret nick : String) :
    Function.Injective (credOfHost secret nick) := by
  intro a b h
  have hd := congrArg String.data h
  simp only [credOfHost, String.data_append] at hd
  have h1 := List.append_cancel_right hd
  have h2 := List.append_cancel_right h1
  have h3 := List.append_cancel_left h2
  exact String.ext h3

theorem get_password_ne_empty (secret : String) (hm : Hostmask) (b : Bool) :
    get_password secret hm b ≠ "" := by
  intro h
  have hl := congrArg String.length h
  simp only [get_password, String.length_append] at hl
  rw [show String.length "@" = 1 from rfl,
    show String.length ", secret: " = 10 from rfl,
    show String.length "" = 0 from rfl] at hl
  omega

/-- The dispatcher routes the literal incorrect-password line to its
handler. -/
theorem dispatch_incorrect (cfg : Config) (hm : Hostmask) (st : SrvState) :
    handleServerMsg cfg hm st "Incorrect password" =
      handleIncorrectLine cfg hm st := by
  simp only [handleServerMsg]
  rw [if_neg (by decide)]
  rw [show matchSnapshot "Incorrect password" = none from by decide]
  simp only []
  rw [if_neg (fun hcon => absurd hcon.1 (by decide))]
  rw [if_pos (by decide)]

theorem runServerMsgs_cons (cfg : Config) (hm : Hostmask) (st : SrvState)
    (m : String) (ms : List String) :
    runServerMsgs cfg hm st (m :: ms) =
      ((runServerMsgs cfg hm (handleServerMsg cfg hm st m).1 ms).1,
       (handleServerMsg cfg hm st m).2 ++
         (runServerMsgs cfg hm (handleServerMsg cfg hm st m).1 ms).2) := rfl

/-- A credential chain witnessed by `chainSpec` is exactly what the run
of incorrect-password replies produces: one login per credential, then
the failure marking and the operator warning. -/
theorem chainSpec_run (cfg : Config) (hm : Hostmask) :
    ∀ (cs : List String) (st : SrvState),
      chainSpec cfg hm st.password_attempt cs →
      runServerMsgs cfg hm st
          (List.replicate (cs.length + 1) "Incorrect password") =
        ({ st with password_attempt := st.password_attempt + cs.length,
                   logged_in := LoggedIn.lfalse },
         cs.map Msg.login ++ [Msg.warnIncorrectPassword]) := by
  intro cs
  induction cs with
  | nil =>
    intro st hspec
    simp only [chainSpec] at hspec
    rw [show List.replicate (([] : List String).length + 1) "Incorrect password" =
      ["Incorrect password"] from rfl]
    rw [runServerMsgs_cons, dispatch_incorrect]
    have hstep : handleIncorrectLine cfg hm st =
        ({ st with logged_in := LoggedIn.lfalse }, [Msg.warnIncorrectPassword]) := by
      simp only [handleIncorrectLine, hspec]
    rw [hstep]
    simp [runServerMsgs]
  | cons c cs ih =>
    intro st hspec
    rcases hspec with ⟨hget, hcne, hrest⟩
    rw [show List.replicate ((c :: cs).length + 1) "Incorrect password" =
      "Incorrect password" ::
        List.replicate (cs.length + 1) "Incorrect password" from by
      simp [List.replicate]]
    rw [runServerMsgs_cons, dispatch_incorrect]
    have hstep : handleIncorrectLine cfg hm st =
        ({ st with password_attempt := st.password_attempt + 1 },
         [Msg.login c]) := by
      simp only [handleIncorrectLine, hget]
      rw [if_neg hcne]
    rw [hstep]
    have hih := ih { st with password_attempt := st.password_attempt + 1 }
      (by simpa using hrest)
    simp only [] at hih
    rw [hih]
    simp only [Prod.mk.injEq, List.map_cons, List.length_cons]
    constructor
    · rw [show st.password_attempt + 1 + cs.length =
        st.password_attempt + (cs.length + 1) from by omega]
    · simp

/-- A credential chain witnessed by `chainSpec` is what `credChainAux`
computes, for any sufficient fuel. -/
theorem chainSpec_credChainAux (cfg : Config) (hm : Hostmask) :
    ∀ (cs : List String) (a fuel : Nat), chainSpec cfg hm a cs →
      cs.length + 1 ≤ fuel → credChainAux cfg hm fuel a = cs := by
  intro cs
  induction cs with
  | nil =>
    intro a fuel hspec hfuel
    simp only [chainSpec] at hspec
    cases fuel with
    | zero => omega
    | succ f => simp only [credChainAux, hspec]
  | cons c cs ih =>
    intro a fuel hspec hfuel
    rcases hspec with ⟨hget, _, hrest⟩
    cases fuel with
    | zero => simp at hfuel
    | succ f =>
      simp only [credChainAux, hget]
      rw [ih (a + 1) f hrest (by simp at hfuel; omega)]

/-- Under the multi-generation configuration the fallback chain from a
positive attempt counter walks the remaining legacy domains, two
credentials per domain. -/
theorem chainSpec_domains (cfg : Config) (hm : Hostmask) (ds : List String)
    (hen : cfg.enable_legacy_passwords = true)
    (hnd : cfg.new_domain = some hm.host)
    (hne : hm.host ≠ "")
    (hds : cfg.legacy_domains = some ds) :
    ∀ (l : List String) (k : Nat), ds.drop k = l →
      chainSpec cfg hm (2 * k + 1)
        (l.flatMap (fun d =>
          [get_password cfg.secret ⟨hm.nick, hm.ident, d⟩ false,
           get_password cfg.secret ⟨hm.nick, hm.ident, d⟩ true])) := by
  intro l
  induction l with
  | nil =>
    intro k hdrop
    simp only [List.flatMap_nil, chainSpec]
    rw [get_pw_attempt_pos cfg hm (2 * k + 1) (by omega)]
    simp only [fallbackSpecPos, hnd, hds]
    rw [if_pos ⟨hen, hne, trivial⟩]
    rw [show (2 * k + 1 - 1) / 2 = k from by omega]
    rw [List.get?_eq_none.mpr (by
      have := List.drop_eq_nil_iff_le.mp hdrop
      omega)]
  | cons d l2 ih =>
    intro k hdrop
    have hgetk : ds.get? k = some d := by
      have h0 : (ds.drop k).get? 0 = some d := by rw [hdrop]; rfl
      rw [List.get?_drop] at h0
      simpa using h0
    simp only [List.flatMap_cons, List.cons_append, List.nil_append, chainSpec]
    refine ⟨?_, get_password_ne_empty _ _ _, ?_, get_password_ne_empty _ _ _, ?_⟩
    · rw [get_pw_attempt_pos cfg hm (2 * k + 1) (by omega)]
      simp only [fallbackSpecPos, hnd, hds]
      rw [if_pos ⟨hen, hne, trivial⟩]
      rw [show (2 * k + 1 - 1) / 2 = k from by omega, hgetk]
      simp only []
      rw [decide_eq_false (by omega : ¬(2 * k + 1) % 2 = 0)]
    · rw [show 2 * k + 1 + 1 = 2 * k + 2 from by omega]
      rw [get_pw_attempt_pos cfg hm (2 * k + 2) (by omega)]
      simp only [fallbackSpecPos, hnd, hds]
      rw [if_pos ⟨hen, hne, trivial⟩]
      rw [show (2 * k + 2 - 1) / 2 = k from by omega, hgetk]
      simp only []
      rw [decide_eq_true (by omega : (2 * k + 2) % 2 = 0)]
    · rw [show 2 * k + 1 + 1 + 1 = 2 * (k + 1) + 1 from by omega]
      exact ih (k + 1) (by
        have : ds.drop (k + 1) = (ds.drop k).drop 1 := by
          rw [List.drop_drop]
        rw [this, hdrop]
        rfl)

/-- Under the multi-generation configuration with a many-dotted host
the whole fallback chain from attempt 0 is the legacy credential
list. -/
theorem chainSpec_full (cfg : Config) (hm : Hostmask) (ds : List String)
    (hen : cfg.enable_legacy_passwords = true)
    (hnd : cfg.new_domain = some hm.host)
    (hne : hm.host ≠ "")
    (hds : cfg.legacy_domains = some ds)
    (hdots : 2 < countCh hm.host '.') :
    chainSpec cfg hm 0 (legacyCredList cfg hm ds) := by
  simp only [legacyCredList, chainSpec]
  refine ⟨?_, get_password_ne_empty _ _ _, ?_⟩
  · rw [show ((0 : Nat) : Int) = (0 : Int) from rfl]
    rw [get_pw_attempt_zero cfg hm]
    simp only [fallbackSpec0]
    rw [if_pos ⟨hen, hdots⟩]
  · have := chainSpec_domains cfg hm ds hen hnd hne hds ds 0 (by simp)
    simpa using this

/-- The initial current-mode credential and the whole fallback list
factor through `credOfHost` over the truncated host list. -/
theorem creds_eq_hosts_map (cfg : Config) (hm : Hostmask) (ds : List String) :
    get_password cfg.secret hm false :: legacyCredList cfg hm ds =
      (chainHostList hm ds).map (credOfHost cfg.secret hm.nick) := by
  simp only [legacyCredList, chainHostList, List.map_cons]
  refine congrArg₂ _ rfl (congrArg₂ _ rfl ?_)
  induction ds with
  | nil => rfl
  | cons d t ih =>
    simp only [List.flatMap_cons, List.map_append]
    rw [← ih]
    rfl

theorem legacyCredList_length (cfg : Config) (hm : Hostmask)
    (ds : List String) :
    (legacyCredList cfg hm ds).length = 2 * ds.length + 1 := by
  simp only [legacyCredList, List.length_cons]
  have hfl : ∀ t : List String, (t.flatMap (fun d =>
      [get_password cfg.secret ⟨hm.nick, hm.ident, d⟩ false,
       get_password cfg.secret ⟨hm.nick, hm.ident, d⟩ true])).length =
      2 * t.length := by
    intro t
    induction t with
    | nil => rfl
    | cons d t2 ih =>
      simp only [List.flatMap_cons, List.length_append, ih, List.length_cons,
        List.length_nil]
      omega
  rw [hfl]

/-- Claim C3 counterexample: with legacy domains of at most two
dot-separated segments the current-mode and legacy-mode credentials
coincide, so the deterministic sequence REPEATS a credential: three
incorrect-password replies produce three login attempts of which the
second and third carry the same credential. -/
theorem C3_counterexample :
    (runServerMsgs ⟨"sec", true, some "a.b.c.d", some ["e.f"]⟩
        ⟨"srv", "id", "a.b.c.d"⟩ ⟨[], LoggedIn.unset, 0⟩
        (List.replicate 3 "Incorrect password")).2 =
      [Msg.login "srv@a.b, secret: sec", Msg.login "srv@e.f, secret: sec",
       Msg.login "srv@e.f, secret: sec"] ∧
    ¬ (runServerMsgs ⟨"sec", true, some "a.b.c.d", some ["e.f"]⟩
        ⟨"srv", "id", "a.b.c.d"⟩ ⟨[], LoggedIn.unset, 0⟩
        (List.replicate 3 "Incorrect password")).2.Nodup ∧
    ¬ (credChain ⟨"sec", true, some "a.b.c.d", some ["e.f"]⟩
        ⟨"srv", "id", "a.b.c.d"⟩).Nodup := by
  refine ⟨by decide, by decide, by decide⟩

/-- Claim C3 (amended): with the legacy feature enabled, the host equal
to the (nonempty) new-domain marker and containing more than two dots,
and a configured legacy-domain list, the fallback chain is the
deterministic list `legacyCredList` (legacy own-host first, then
current and legacy mode per domain, 2|domains|+1 credentials); a
sequence of N+1 incorrect-password replies sends exactly those N
credentials as logins in order and then sets `logged_in` to false and
emits the operator warning; and the N+1 credentials including the
initial current-mode one are pairwise distinct PROVIDED the truncated
host forms in `chainHostList` are pairwise distinct — a proviso the
original claim lacks and which fails e.g. for a two-segment legacy
domain, where current and legacy mode coincide. -/
theorem C3_fallback_run (cfg : Config) (hm : Hostmask) (ds : List String)
    (hen : cfg.enable_legacy_passwords = true)
    (hnd : cfg.new_domain = some hm.host)
    (hne : hm.host ≠ "")
    (hds : cfg.legacy_domains = some ds)
    (hdots : 2 < countCh hm.host '.') :
    credChain cfg hm = legacyCredList cfg hm ds ∧
    (legacyCredList cfg hm ds).length = 2 * ds.length + 1 ∧
    (∀ (pl : PlayerList) (li : LoggedIn),
      runServerMsgs cfg hm ⟨pl, li, 0⟩
          (List.replicate ((legacyCredList cfg hm ds).length + 1)
            "Incorrect password") =
        (⟨pl, LoggedIn.lfalse, (legacyCredList cfg hm ds).length⟩,
         (legacyCredList cfg hm ds).map Msg.login ++
           [Msg.warnIncorrectPassword])) ∧
    ((chainHostList hm ds).Nodup →
      (get_password cfg.secret hm false :: legacyCredList cfg hm ds).Nodup) := by
  have hspec := chainSpec_full cfg hm ds hen hnd hne hds hdots
  have hlen : (legacyCredList cfg hm ds).length = 2 * ds.length + 1 :=
    legacyCredList_length cfg hm ds
  refine ⟨?_, hlen, ?_, ?_⟩
  · have hfuel : (legacyCredList cfg hm ds).length + 1 ≤ credChainFuel cfg := by
      simp only [credChainFuel, hds, hlen]
      simp
    exact chainSpec_credChainAux cfg hm (legacyCredList cfg hm ds) 0
      (credChainFuel cfg) hspec hfuel
  · intro pl li
    have := chainSpec_run cfg hm (legacyCredList cfg hm ds)
      ⟨pl, li, 0⟩ (by simpa using hspec)
    simpa using this
  · intro hhosts
    rw [creds_eq_hosts_map cfg hm ds]
    exact hhosts.map (credOfHost_inj cfg.secret hm.nick)

/-- Witness for C3: a concrete configuration with distinct truncated
hosts runs the full fallback and never repeats a credential. -/
theorem C3_fallback_run_witness :
    credChain ⟨"sec", true, some "a.b.c.d", some ["x.y.z.w"]⟩
        ⟨"srv", "id", "a.b.c.d"⟩ =
      legacyCredList ⟨"sec", true, some "a.b.c.d", some ["x.y.z.w"]⟩
        ⟨"srv", "id", "a.b.c.d"⟩ ["x.y.z.w"] ∧
    (get_password "sec" ⟨"srv", "id", "a.b.c.d"⟩ false ::
      legacyCredList ⟨"sec", true, some "a.b.c.d", some ["x.y.z.w"]⟩
        ⟨"srv", "id", "a.b.c.d"⟩ ["x.y.z.w"]).Nodup := by
  have h := C3_fallback_run ⟨"sec", true, some "a.b.c.d", some ["x.y.z.w"]⟩
    ⟨"srv", "id", "a.b.c.d"⟩ ["x.y.z.w"] (by decide) (by decide) (by decide)
    (by decide) (by decide)
  exact ⟨h.1, h.2.2.2 (by decide)⟩

end Trackr
